import Mathlib

/-!
# Verification of the LCT dashboard CSV-processing pipeline

Shallow embedding of the data-reconciliation pipeline found in
`src/utils/csvProcessor.ts` (the normalization layer, merge/join engine and
aggregation engine) together with the orchestrating upload handler in
`src/App.tsx`.

JavaScript cell values are modelled by `JsValue` (finite numbers as rationals,
strings, booleans, `null` and `undefined`).  JavaScript objects and `Map`s are
modelled as insertion-ordered association lists, which reproduces the
insertion-order iteration semantics of both.  Host facilities that are not part
of the repository (the `Date` parser, the current calendar year) are modelled
explicitly and documented at their definitions.
-/

namespace Lct

/-- A JavaScript value as it can occur in a decoded spreadsheet cell or in a
record field.  Finite numbers are modelled as rationals (IEEE doubles embed in
ℚ); `NaN` does not occur in any path the pipeline produces. -/
inductive JsValue where
  | num (q : ℚ)
  | str (s : String)
  | boolean (b : Bool)
  | null
  | undefined
deriving DecidableEq, Repr

/-- JavaScript truthiness (`Boolean(v)`): `0`, `""`, `false`, `null` and
`undefined` are falsy. -/
def truthy : JsValue → Bool
  | .num q => decide (q ≠ 0)
  | .str s => decide (s ≠ "")
  | .boolean b => b
  | .null => false
  | .undefined => false

/-- `a || b` on JavaScript values. -/
def jsOr (a b : JsValue) : JsValue := if truthy a then a else b

/-- ASCII whitespace as matched by `\s` and removed by `String.prototype.trim`
(the pipeline only ever meets ASCII whitespace). -/
def isWsChar (c : Char) : Bool :=
  c = ' ' || c = '\t' || c = '\n' || c = '\r' || c = '\x0b' || c = '\x0c'

/-- A `\w` word character: ASCII alphanumeric or underscore. -/
def isWordChar (c : Char) : Bool := c.isAlphanum || c = '_'

/-- `String.prototype.trim` on a character list. -/
def trimChars (cs : List Char) : List Char :=
  ((cs.dropWhile isWsChar).reverse.dropWhile isWsChar).reverse

def jsStrTrim (s : String) : String := String.mk (trimChars s.data)

def strToLower (s : String) : String := String.mk (s.data.map Char.toLower)

/-- Whether `pat` occurs at the start of `cs`. -/
def listStartsWith : List Char → List Char → Bool
  | _, [] => true
  | [], _ :: _ => false
  | a :: as, b :: bs => a = b && listStartsWith as bs

/-- Whether `pat` occurs anywhere inside `cs`
(`String.prototype.includes`). -/
def listHasSub : List Char → List Char → Bool
  | [], pat => pat.isEmpty
  | c :: cs, pat => listStartsWith (c :: cs) pat || listHasSub cs pat

def strIncludes (s pat : String) : Bool := listHasSub s.data pat.data

/-- Decimal digits of a natural number, most significant first (fuel-driven so
that it reduces by kernel evaluation). -/
def natDigitsAux : ℕ → ℕ → List Char
  | 0, _ => []
  | fuel + 1, n =>
    if n = 0 then []
    else natDigitsAux fuel (n / 10) ++ [Char.ofNat (48 + n % 10)]

def natToString (n : ℕ) : String :=
  if n = 0 then "0" else String.mk (natDigitsAux (n + 1) n)

def intToString (i : ℤ) : String :=
  if i < 0 then "-" ++ natToString i.natAbs else natToString i.natAbs

/-- Least `k ≤ fuel` with `d ∣ 10 ^ k`, if any. -/
def pow10Exp (d : ℕ) : ℕ → Option ℕ
  | 0 => if d ∣ 1 then some 0 else none
  | fuel + 1 =>
    match pow10Exp d fuel with
    | some k => some k
    | none => if d ∣ 10 ^ (fuel + 1) then some (fuel + 1) else none

/-- Drop trailing zero digits of a decimal-fraction digit list. -/
def dropTrailingZeros (cs : List Char) : List Char :=
  (cs.reverse.dropWhile (· = '0')).reverse

/-- `String(q)` for a finite JavaScript number.  Exact for every value a
binary double can take (denominators are powers of two, so the decimal
expansion terminates); numbers JavaScript would print in exponent notation are
out of the pipeline's range and are not modelled. -/
def ratToString (q : ℚ) : String :=
  let sign := if q < 0 then "-" else ""
  let n := q.num.natAbs
  let d := q.den
  if d = 1 then sign ++ natToString n
  else
    match pow10Exp d 64 with
    | some k =>
      let scaled := n * 10 ^ k / d
      let intPart := scaled / 10 ^ k
      let fracDigits :=
        let raw := natDigitsAux (scaled % 10 ^ k + 1) (scaled % 10 ^ k)
        List.replicate (k - raw.length) '0' ++ raw
      sign ++ natToString intPart ++ "." ++ String.mk (dropTrailingZeros fracDigits)
    | none => sign ++ natToString n ++ "/" ++ natToString d

/-- `String(v)` coercion. -/
def jsToString : JsValue → String
  | .num q => ratToString q
  | .str s => s
  | .boolean b => if b then "true" else "false"
  | .null => "null"
  | .undefined => "undefined"

/-! ## Regular-expression matchers used by the extractors

Each regex literal of `csvProcessor.ts` is embedded as a dedicated parser on
character lists. -/

/-- Split a leading run of decimal digits. -/
def takeDigits (cs : List Char) : List Char × List Char :=
  (cs.takeWhile Char.isDigit, cs.dropWhile Char.isDigit)

/-- `parseInt` on an all-digit capture group. -/
def digitsToNat (ds : List Char) : ℕ :=
  ds.foldl (fun acc c => 10 * acc + (c.toNat - 48)) 0

/-- `/^(\d+):(\d+)(?::(\d+))?\s*(?:AM|PM)?$/i` — the Excel-time/duration
pattern checked first by `extractNumber`.  Returns `(hours, minutes, seconds)`
with `seconds = 0` when the optional third group is absent. -/
def matchClockAmPm (cs : List Char) : Option (ℕ × ℕ × ℕ) :=
  let (d1, r1) := takeDigits cs
  if d1.isEmpty then none
  else match r1 with
    | ':' :: r2 =>
      let (d2, r3) := takeDigits r2
      if d2.isEmpty then none
      else
        -- optional `(?::(\d+))?`
        let (d3, r4) :=
          match r3 with
          | ':' :: r3' =>
            let (d, r) := takeDigits r3'
            if d.isEmpty then ([], r3) else (d, r)
          | _ => ([], r3)
        let r5 := r4.dropWhile isWsChar
        let r6 :=
          match r5 with
          | a :: m :: rest =>
            if (a = 'A' || a = 'a' || a = 'P' || a = 'p') && (m = 'M' || m = 'm')
            then rest else r5
          | _ => r5
        if r6.isEmpty then
          some (digitsToNat d1, digitsToNat d2,
                if d3.isEmpty then 0 else digitsToNat d3)
        else none
    | _ => none

/-- `/^(\d+):(\d+):(\d+)$/`. -/
def matchHMS (cs : List Char) : Option (ℕ × ℕ × ℕ) :=
  let (d1, r1) := takeDigits cs
  if d1.isEmpty then none
  else match r1 with
    | ':' :: r2 =>
      let (d2, r3) := takeDigits r2
      if d2.isEmpty then none
      else match r3 with
        | ':' :: r4 =>
          let (d3, r5) := takeDigits r4
          if d3.isEmpty || !r5.isEmpty then none
          else some (digitsToNat d1, digitsToNat d2, digitsToNat d3)
        | _ => none
    | _ => none

/-- `/^(\d+):(\d+)$/`. -/
def matchHM (cs : List Char) : Option (ℕ × ℕ) :=
  let (d1, r1) := takeDigits cs
  if d1.isEmpty then none
  else match r1 with
    | ':' :: r2 =>
      let (d2, r3) := takeDigits r2
      if d2.isEmpty || !r3.isEmpty then none
      else some (digitsToNat d1, digitsToNat d2)
    | _ => none

/-- JavaScript `parseFloat`: skip leading whitespace, optional sign, longest
valid decimal prefix (`digits [. digits] [e/E [sign] digits]`), `none` when no
digit is found (`NaN`).  The `Infinity` literal is not modelled: the only call
site feeds strings over the alphabet `{\, d, ., -}` which cannot spell it. -/
def jsParseFloat (cs : List Char) : Option ℚ :=
  let cs := cs.dropWhile isWsChar
  let (neg, cs) :=
    match cs with
    | '-' :: rest => (true, rest)
    | '+' :: rest => (false, rest)
    | _ => (false, cs)
  let (ip, r1) := takeDigits cs
  let (fp, r2) :=
    match r1 with
    | '.' :: r1' => takeDigits r1'
    | _ => ([], r1)
  if ip.isEmpty && fp.isEmpty then none
  else
    let mant : ℚ := (digitsToNat ip : ℚ) + (digitsToNat fp : ℚ) / (10 : ℚ) ^ fp.length
    let expPart : ℤ :=
      match r2 with
      | e :: r2' =>
        if e = 'e' || e = 'E' then
          let (esign, r3) :=
            match r2' with
            | '-' :: rest => ((-1 : ℤ), rest)
            | '+' :: rest => ((1 : ℤ), rest)
            | _ => ((1 : ℤ), r2')
          let (ed, _) := takeDigits r3
          if ed.isEmpty then 0 else esign * digitsToNat ed
        else 0
      | [] => 0
    let v := mant * (10 : ℚ) ^ expPart
    some (if neg then -v else v)

/-- `extractNumber` (`csvProcessor.ts`): numbers pass through; falsy values
give 0; clock-style strings become fractional hours; otherwise the string is
stripped down by `replace(/[^\\d.-]/g, '')` — a character class that keeps
only backslash, the letter `d`, dot and minus — and handed to `parseFloat`,
with 0 for `NaN`. -/
def extractNumber (v : JsValue) : ℚ :=
  match v with
  | .num q => q
  | _ =>
    if truthy v = false then 0
    else
      let s := trimChars (jsToString v).data
      match matchClockAmPm s with
      | some (h, m, sec) => (h : ℚ) + (m : ℚ) / 60 + (sec : ℚ) / 3600
      | none =>
        match matchHMS s with
        | some (h, m, sec) => (h : ℚ) + (m : ℚ) / 60 + (sec : ℚ) / 3600
        | none =>
          match matchHM s with
          | some (h, m) => (h : ℚ) + (m : ℚ) / 60
          | none =>
            let cleaned := s.filter fun c => c = '\\' || c = 'd' || c = '.' || c = '-'
            match jsParseFloat cleaned with
            | some q => q
            | none => 0

/-- Leftmost match of `/\b(20\d{2})\b/`: scan for `20dd` with a non-word
character (or the string edge) on both sides.  `prev` is the character before
the current position. -/
def find20xxAux : Option Char → List Char → Option ℤ
  | prev, '2' :: '0' :: a :: b :: rest =>
    if a.isDigit && b.isDigit
        && (match prev with | some p => !isWordChar p | none => true)
        && (match rest with | c :: _ => !isWordChar c | [] => true) then
      some ((2000 + 10 * (a.toNat - 48) + (b.toNat - 48) : ℕ) : ℤ)
    else find20xxAux (some '2') ('0' :: a :: b :: rest)
  | _, c :: rest => find20xxAux (some c) rest
  | _, [] => none

def find20xx (s : String) : Option ℤ := find20xxAux none s.data

/-- Leap-year rule used by ECMAScript date validation. -/
def isLeapYear (y : ℤ) : Bool :=
  y % 4 = 0 && (y % 100 ≠ 0 || y % 400 = 0)

def daysInMonth (y : ℤ) (m : ℕ) : ℕ :=
  if m = 2 then (if isLeapYear y then 29 else 28)
  else if m = 4 || m = 6 || m = 9 || m = 11 then 30
  else 31

/-- Model of the host `new Date(str).getFullYear()` fallback in `extractYear`.
The ECMAScript standard only guarantees parsing of the Date Time String
Format; we model its date-only part `YYYY[-MM[-DD]]` (evaluated in UTC) and
treat every other string as an invalid date.  Every string the pipeline feeds
this fallback has already failed the `20\d{2}` search, so no claim depends on
the host-defined remainder of `Date` parsing. -/
def jsDateYear (s : String) : Option ℤ :=
  let cs := s.data
  let (yd, r1) := takeDigits cs
  if yd.length ≠ 4 then none
  else
    let y : ℤ := (digitsToNat yd : ℕ)
    match r1 with
    | [] => some y
    | '-' :: r2 =>
      let (md, r3) := takeDigits r2
      if md.length ≠ 2 then none
      else
        let m := digitsToNat md
        if m < 1 || 12 < m then none
        else match r3 with
          | [] => some y
          | '-' :: r4 =>
            let (dd, r5) := takeDigits r4
            if dd.length ≠ 2 || !r5.isEmpty then none
            else
              let d := digitsToNat dd
              if d < 1 || daysInMonth y m < d then none else some y
          | _ => none
    | _ => none

/-- `extractYear` (`csvProcessor.ts`): falsy gives `undefined`; a number in
`[2022, 2100]` is floored; otherwise the string is searched for a `20\d{2}`
word, falling back to full date parsing. -/
def extractYear (v : JsValue) : Option ℤ :=
  if truthy v = false then none
  else
    let strPath : String → Option ℤ := fun s =>
      match find20xx s with
      | some y => some y
      | none => jsDateYear s
    match v with
    | .num q => if 2022 ≤ q ∧ q ≤ 2100 then some ⌊q⌋ else strPath (jsToString v)
    | _ => strPath (jsToString v)

/-- Collapse every maximal run of whitespace to a single space
(`replace(/\s+/g, ' ')`).  `inRun` records whether the previous character was
whitespace. -/
def collapseWsAux : Bool → List Char → List Char
  | _, [] => []
  | inRun, c :: rest =>
    if isWsChar c then
      if inRun then collapseWsAux true rest
      else ' ' :: collapseWsAux true rest
    else c :: collapseWsAux false rest

/-- `normalizeCourseName`: falsy gives `""`; otherwise trim, lower-case,
collapse whitespace, and drop every character that is not a word character,
whitespace or hyphen (`replace(/[^\w\s-]/g, '')`). -/
def normalizeCourseName (name : JsValue) : String :=
  if truthy name = false then ""
  else
    let s := (trimChars (jsToString name).data).map Char.toLower
    let s := collapseWsAux false s
    String.mk (s.filter fun c => isWordChar c || isWsChar c || c = '-')

/-! ## JavaScript objects and Maps as insertion-ordered association lists -/

/-- A JavaScript object (a decoded spreadsheet row, or a per-source record):
string keys to values, in insertion order. -/
abbrev JsObj := List (String × JsValue)

/-- Property read: `o[k]`, `undefined` when absent. -/
def jsGet : JsObj → String → JsValue
  | [], _ => .undefined
  | (k', v') :: t, k => if k' = k then v' else jsGet t k

/-- Property write: `o[k] = v` updates the first binding in place or appends
a new one (JavaScript objects keep an existing key's position). -/
def jsSet : JsObj → String → JsValue → JsObj
  | [], k, v => [(k, v)]
  | (k', v') :: t, k, v =>
    if k' = k then (k, v) :: t else (k', v') :: jsSet t k v

/-- `Object.keys(o)` in insertion order. -/
def jsKeys (o : JsObj) : List String := o.map (·.1)

/-- Generic `Map` operations over an insertion-ordered association list with
keys of type `κ` (used for the course map, the time-spent groups and the
category maps). -/
def alGet {κ α : Type} [DecidableEq κ] : List (κ × α) → κ → Option α
  | [], _ => none
  | (k', v') :: t, k => if k' = k then some v' else alGet t k

def alHas {κ α : Type} [DecidableEq κ] (m : List (κ × α)) (k : κ) : Bool :=
  (alGet m k).isSome

def alSet {κ α : Type} [DecidableEq κ] : List (κ × α) → κ → α → List (κ × α)
  | [], k, v => [(k, v)]
  | (k', v') :: t, k, v =>
    if k' = k then (k, v) :: t else (k', v') :: alSet t k v

/-- `Map.prototype.delete`. -/
def alErase {κ α : Type} [DecidableEq κ] : List (κ × α) → κ → List (κ × α)
  | [], _ => []
  | (k', v') :: t, k => if k' = k then t else (k', v') :: alErase t k

/-! ## Validation diagnostics -/

inductive Severity where
  | error
  | warning
deriving DecidableEq, Repr

structure ValidationError where
  file : String
  row : Option ℕ := none
  field : Option String := none
  message : String
  severity : Severity
deriving DecidableEq, Repr

/-! ## Column-detection predicates (the `Object.keys(row).find(...)` lambdas)

Each predicate first applies `key.toLowerCase().trim()` as the source does. -/

def keyLower (k : String) : String := jsStrTrim (strToLower k)

/-- Course-name column for the Legacy/Modern normalizers. -/
def isCourseNameKeyLM (k : String) : Bool :=
  let l := keyLower k
  l = "course name" || l = "coursename" || l = "name" || l = "course" ||
    l = "title" || (strIncludes l "course" && strIncludes l "name")

/-- Time column for the Legacy/Modern normalizers. -/
def isTimeKeyLM (k : String) : Bool :=
  let l := keyLower k
  l = "time spent" || l = "timespent" || l = "time" || l = "hours" ||
    l = "total time" || l = "totaltime" ||
    (strIncludes l "time" && strIncludes l "spent") ||
    (strIncludes l "total" && (strIncludes l "time" || strIncludes l "hour"))

def isYearKey (k : String) : Bool :=
  let l := keyLower k
  l = "year" || strIncludes l "year"

def isDateLikeKey (k : String) : Bool :=
  let l := keyLower k
  strIncludes l "date" || strIncludes l "completed" || strIncludes l "reporting"

/-- Course-name column for the time-spent normalizer (more permissive). -/
def isCourseNameKeyTs (k : String) : Bool :=
  let l := keyLower k
  strIncludes l "course" || strIncludes l "name" || strIncludes l "title" ||
    l = "name" || l = "course" || l = "title"

def isCategoryKey (k : String) : Bool :=
  let l := keyLower k
  strIncludes l "category" || strIncludes l "type"

def isTimeKeyTs (k : String) : Bool :=
  let l := keyLower k
  strIncludes l "time" || strIncludes l "hour"

def isUserKey (k : String) : Bool :=
  let l := keyLower k
  strIncludes l "user" || strIncludes l "member" || strIncludes l "employee"

/-- `value !== null && value !== undefined && String(value).trim() !== ''`,
returning the trimmed string. -/
def strFieldVal (v : JsValue) : Option String :=
  if v = .null ∨ v = .undefined then none
  else
    let s := jsStrTrim (jsToString v)
    if s = "" then none else some s

/-- `value !== null && value !== undefined && value !== ''`. -/
def cellPresent (v : JsValue) : Bool :=
  !(v = .null || v = .undefined || v = .str "")

/-- Truthiness of a `number | undefined` (the `extractYear` results joined
with `||` and tested with `!`). -/
def optYearTruthy : Option ℤ → Bool
  | some y => decide (y ≠ 0)
  | none => false

def jsOfOptYear : Option ℤ → JsValue
  | some y => .num y
  | none => .undefined

/-- Year resolution shared by the Legacy and Modern normalizers: an explicit
year-named column first, else every date/completed/reporting column in
encounter order until one yields a truthy year. -/
def resolveRowYear (row : JsObj) : Option ℤ :=
  let fromYearKey :=
    match (jsKeys row).find? isYearKey with
    | some k => extractYear (jsGet row k)
    | none => none
  if optYearTruthy fromYearKey then fromYearKey
  else
    let rec firstYear : List String → Option ℤ
      | [] => none
      | k :: t =>
        let y := extractYear (jsGet row k)
        if optYearTruthy y then y else firstYear t
    firstYear ((jsKeys row).filter isDateLikeKey)

/-! ## Source normalizers -/

/-- Result of one normalizer: the canonical records plus diagnostics. -/
structure NormalizeResult where
  data : List JsObj
  errors : List ValidationError
deriving DecidableEq, Repr

/-- Per-row work of `normalizeLegacyData`, up to the diagnostics: `none` when
the course name is missing (the row is excluded), otherwise the completed
record together with the trimmed course name and whether the zero-time
warning fires (both computed before the metadata copy, as in the source). -/
def legacyRowParsed (row : JsObj) : Option (JsObj × String × Bool) :=
  let cn? := ((jsKeys row).find? isCourseNameKeyLM).bind fun k => strFieldVal (jsGet row k)
  match cn? with
  | none => none
  | some cn =>
    let r0 : JsObj := [("courseName", .str ""), ("totalTime", .num 0)]
    let r1 := jsSet r0 "courseName" (.str cn)
    let r2 :=
      match (jsKeys row).find? isTimeKeyLM with
      | some k =>
        if cellPresent (jsGet row k)
        then jsSet r1 "totalTime" (.num (extractNumber (jsGet row k)))
        else r1
      | none => r1
    let zeroTime := jsGet r2 "totalTime" = .num 0
    let r3 :=
      match resolveRowYear row with
      | some y => if y ≠ 0 then jsSet r2 "year" (.num y) else r2
      | none => r2
    let r4 := row.foldl (fun acc p => jsSet acc p.1 (jsGet row p.1)) r3
    some (r4, cn, zeroTime)

def legacyMissingNameError (i : ℕ) : ValidationError :=
  { file := "Legacy Course Data", row := some (i + 2), field := some "Course Name",
    message := "Missing or empty course name", severity := .error }

def legacyZeroTimeWarning (i : ℕ) (cn : String) : ValidationError :=
  { file := "Legacy Course Data", row := some (i + 2), field := some "Total Time",
    message := "Course \"" ++ cn ++ "\" has zero or missing total time",
    severity := .warning }

/-- `normalizeLegacyData`. -/
def normalizeLegacyData (rawData : List JsObj) : NormalizeResult :=
  rawData.enum.foldl
    (fun acc (p : ℕ × JsObj) =>
      match legacyRowParsed p.2 with
      | none => { acc with errors := acc.errors ++ [legacyMissingNameError p.1] }
      | some (r, cn, zero) =>
        { data := acc.data ++ [r],
          errors := acc.errors ++ (if zero then [legacyZeroTimeWarning p.1 cn] else []) })
    ⟨[], []⟩

/-- Per-row work of `normalizeModernData` (same shape as Legacy, but the time
field is optional with no zero-time warning). -/
def modernRowParsed (row : JsObj) : Option JsObj :=
  let cn? := ((jsKeys row).find? isCourseNameKeyLM).bind fun k => strFieldVal (jsGet row k)
  match cn? with
  | none => none
  | some cn =>
    let r0 : JsObj := [("courseName", .str "")]
    let r1 := jsSet r0 "courseName" (.str cn)
    let r2 :=
      match (jsKeys row).find? isTimeKeyLM with
      | some k =>
        if cellPresent (jsGet row k)
        then jsSet r1 "totalTime" (.num (extractNumber (jsGet row k)))
        else r1
      | none => r1
    let r3 :=
      match resolveRowYear row with
      | some y => if y ≠ 0 then jsSet r2 "year" (.num y) else r2
      | none => r2
    some (row.foldl (fun acc p => jsSet acc p.1 (jsGet row p.1)) r3)

def modernMissingNameError (i : ℕ) : ValidationError :=
  { file := "Modern Course Data", row := some (i + 2), field := some "Course Name",
    message := "Missing or empty course name", severity := .error }

/-- `normalizeModernData`. -/
def normalizeModernData (rawData : List JsObj) : NormalizeResult :=
  rawData.enum.foldl
    (fun acc (p : ℕ × JsObj) =>
      match modernRowParsed p.2 with
      | none => { acc with errors := acc.errors ++ [modernMissingNameError p.1] }
      | some r => { acc with data := acc.data ++ [r] })
    ⟨[], []⟩

/-- Per-row work of `normalizeTimeSpentData`: `none` when no course name is
found (the row is excluded).  The metadata copy skips the four columns the
heuristics matched. -/
def tsRowParsed (row : JsObj) : Option JsObj :=
  let nameKey := (jsKeys row).find? isCourseNameKeyTs
  let cn? := nameKey.bind fun k => strFieldVal (jsGet row k)
  match cn? with
  | none => none
  | some cn =>
    let catKey := (jsKeys row).find? isCategoryKey
    let timeKey := (jsKeys row).find? isTimeKeyTs
    let userKey := (jsKeys row).find? isUserKey
    let r0 : JsObj := [("courseName", .str "")]
    let r1 := jsSet r0 "courseName" (.str cn)
    let r2 :=
      match catKey with
      | some k =>
        match strFieldVal (jsGet row k) with
        | some c => jsSet r1 "category" (.str c)
        | none => r1
      | none => r1
    let r3 :=
      match timeKey with
      | some k =>
        if cellPresent (jsGet row k) then
          let t := extractNumber (jsGet row k)
          jsSet (jsSet r2 "time" (.num t)) "hours" (.num t)
        else r2
      | none => r2
    let r4 :=
      match userKey with
      | some k =>
        match strFieldVal (jsGet row k) with
        | some u => jsSet r3 "user" (.str u)
        | none => r3
      | none => r3
    some (row.foldl
      (fun acc p =>
        if nameKey = some p.1 ∨ catKey = some p.1 ∨ timeKey = some p.1 ∨ userKey = some p.1
        then acc
        else jsSet acc p.1 (jsGet row p.1))
      r4)

def tsMissingNameWarning (i : ℕ) (row : JsObj) : ValidationError :=
  { file := "Time Spent Category Data", row := some (i + 2), field := some "Course Name",
    message := "Missing or empty course name. Available columns: "
      ++ String.intercalate ", " (jsKeys row),
    severity := .warning }

/-- One row of `normalizeTimeSpentData`: missing-name rows are excluded, with
the warning capped at the first five occurrences (counted by the diagnostics
whose `field` is "Course Name"). -/
def tsStep (acc : NormalizeResult) (p : ℕ × JsObj) : NormalizeResult :=
  match tsRowParsed p.2 with
  | none =>
    if (acc.errors.filter fun e => decide (e.field = some "Course Name")).length < 5
    then { acc with errors := acc.errors ++ [tsMissingNameWarning p.1 p.2] }
    else acc
  | some r => { acc with data := acc.data ++ [r] }

/-- `normalizeTimeSpentData`. -/
def normalizeTimeSpentData (rawData : List JsObj) : NormalizeResult :=
  rawData.enum.foldl tsStep ⟨[], []⟩

/-! ## Merge & join engine -/

inductive Classification where
  | legacy
  | modern
  | inProgress
deriving DecidableEq, Repr

/-- `UnifiedCourseData`.  `reportingYear`, `year`, `totalTime` and `status`
are kept as JavaScript values: the source assigns them from `||`-chains whose
result need not be a number when a row carries unusual columns. -/
structure UnifiedCourseData where
  courseName : JsValue
  normalizedCourseName : String
  reportingYear : JsValue
  totalTime : JsValue
  year : JsValue
  status : JsValue
  classification : Classification
  categoryBreakdown : Option (List (JsValue × JsValue)) := none
  metadata : JsObj
  rawLegacy : Option JsObj := none
  rawModern : Option JsObj := none
  rawTimeSpent : Option (List JsObj) := none
deriving DecidableEq, Repr

inductive SourceKind where
  | legacy
  | modern
deriving DecidableEq, Repr

/-- The first, suffix-aware probe of `extractReportingYear` (applies
`toLowerCase().trim()`). -/
def isReportingKeyFor (ft : SourceKind) (k : String) : Bool :=
  let l := keyLower k
  match ft with
  | .legacy => strIncludes l "reporting" && (strIncludes l "(l)" || !strIncludes l "(m)")
  | .modern => strIncludes l "reporting" && (strIncludes l "(m)" || !strIncludes l "(l)")

/-- The fallback probe (`toLowerCase()` without trim). -/
def isAnyReportingKey (k : String) : Bool := strIncludes (strToLower k) "reporting"

/-- `extractReportingYear`. -/
def extractReportingYear (record : JsObj) (ft : SourceKind) : Option ℤ :=
  let fallback :=
    match (jsKeys record).find? isAnyReportingKey with
    | some k => if truthy (jsGet record k) then extractYear (jsGet record k) else none
    | none => none
  match (jsKeys record).find? (isReportingKeyFor ft) with
  | some k => if truthy (jsGet record k) then extractYear (jsGet record k) else fallback
  | none => fallback

/-- `createCourseKey` — the template literal coerces both parts to strings. -/
def createCourseKey (courseName year : JsValue) : String :=
  normalizeCourseName courseName ++ "__" ++ jsToString year

/-- `cleanFieldName`: strip a leading `[LCT]` tag (with following whitespace)
and a trailing `(M)`/`(L)` marker (with preceding whitespace), then trim. -/
def cleanFieldName (k : String) : String :=
  let cs := k.data
  let cs :=
    match cs with
    | '[' :: a :: b :: c :: ']' :: rest =>
      if (a = 'L' || a = 'l') && (b = 'C' || b = 'c') && (c = 'T' || c = 't')
      then rest.dropWhile isWsChar else cs
    | _ => cs
  let cs :=
    match cs.reverse with
    | ')' :: m :: '(' :: rest =>
      if m = 'M' || m = 'm' || m = 'L' || m = 'l'
      then (rest.dropWhile isWsChar).reverse else cs
    | _ => cs
  String.mk (trimChars cs)

/-- `cleanMetadata`: rebuild the object with cleaned keys (later duplicates
overwrite earlier ones, as JavaScript property assignment does). -/
def cleanMetadata (metadata : JsObj) : JsObj :=
  metadata.foldl (fun acc p => jsSet acc (cleanFieldName p.1) p.2) []

/-- Mutable state threaded through the Legacy and Modern passes. -/
structure MergeState where
  map : List (String × UnifiedCourseData)
  errors : List ValidationError
deriving Repr

def missingReportingWarning (file : String) (i : ℕ) (courseName : JsValue) : ValidationError :=
  { file := file, row := some (i + 2), field := some "Reporting",
    message := "Course \"" ++ jsToString courseName ++ "\" missing Reporting date/year",
    severity := .warning }

def duplicateCourseWarning (courseName year : JsValue) : ValidationError :=
  { file := "Modern Course Data", field := some "Course Name",
    message := "Duplicate course instance found: \"" ++ jsToString courseName
      ++ "\" for year " ++ jsToString year,
    severity := .warning }

/-- `reportingYear || record.year || default` — the instance year of a Legacy
or Modern record (default 2024 for Legacy, 2026 for Modern). -/
def recordYearOf (rec : JsObj) (ft : SourceKind) (dflt : ℚ) : JsValue :=
  jsOr (jsOfOptYear (extractReportingYear rec ft)) (jsOr (jsGet rec "year") (.num dflt))

/-- `cleanedMetadata['Status'] || cleanedMetadata['status'] || 'Completed'`. -/
def statusOf (cleanedMetadata : JsObj) : JsValue :=
  jsOr (jsGet cleanedMetadata "Status")
    (jsOr (jsGet cleanedMetadata "status") (.str "Completed"))

/-- The unified record built from one Legacy row (step 1). -/
def legacyUnifiedOf (legacy : JsObj) : UnifiedCourseData :=
  { courseName := jsGet legacy "courseName",
    normalizedCourseName := normalizeCourseName (jsGet legacy "courseName"),
    reportingYear := recordYearOf legacy .legacy 2024,
    totalTime := jsGet legacy "totalTime",
    year := recordYearOf legacy .legacy 2024,
    status := statusOf (cleanMetadata legacy),
    classification := .legacy,
    metadata := cleanMetadata legacy,
    rawLegacy := some legacy }

/-- Step 1 of `mergeAndClassifyData`: one Legacy record. -/
def legacyStep (st : MergeState) (p : ℕ × JsObj) : MergeState :=
  let (i, legacy) := p
  let errors := st.errors ++
    (if optYearTruthy (extractReportingYear legacy .legacy) then []
     else [missingReportingWarning "Legacy Course Data" i (jsGet legacy "courseName")])
  { map := alSet st.map
      (createCourseKey (jsGet legacy "courseName") (recordYearOf legacy .legacy 2024))
      (legacyUnifiedOf legacy),
    errors := errors }

/-- The unified record built from one Modern row (step 2, non-duplicate
case); `totalTime` is `modern.totalTime || 0`, authoritative from the Modern
file. -/
def modernUnifiedOf (modern : JsObj) : UnifiedCourseData :=
  { courseName := jsGet modern "courseName",
    normalizedCourseName := normalizeCourseName (jsGet modern "courseName"),
    reportingYear := recordYearOf modern .modern 2026,
    totalTime := jsOr (jsGet modern "totalTime") (.num 0),
    year := recordYearOf modern .modern 2026,
    status := statusOf (cleanMetadata modern),
    classification := .modern,
    metadata := cleanMetadata modern,
    rawModern := some modern }

/-- Step 2 of `mergeAndClassifyData`: one Modern record.  A key collision
yields one duplicate warning and discards the record. -/
def modernStep (st : MergeState) (p : ℕ × JsObj) : MergeState :=
  let (i, modern) := p
  let errors := st.errors ++
    (if optYearTruthy (extractReportingYear modern .modern) then []
     else [missingReportingWarning "Modern Course Data" i (jsGet modern "courseName")])
  let year := recordYearOf modern .modern 2026
  let courseKey := createCourseKey (jsGet modern "courseName") year
  if alHas st.map courseKey then
    { st with errors := errors ++ [duplicateCourseWarning (jsGet modern "courseName") year] }
  else
    { map := alSet st.map courseKey (modernUnifiedOf modern), errors := errors }

/-- Time-spent groups: normalized course name to its entries, in first-seen
order (step 3 of `mergeAndClassifyData`). -/
abbrev TsGroups := List (String × List JsObj)

def addTsEntry (g : TsGroups) (e : JsObj) : TsGroups :=
  let normalized := normalizeCourseName (jsGet e "courseName")
  alSet g normalized ((alGet g normalized).getD [] ++ [e])

def buildTsGroups (timeSpentData : List JsObj) : TsGroups :=
  timeSpentData.foldl addTsEntry []

/-- `entry.time || entry.hours || 0`. -/
def entryHours (e : JsObj) : JsValue :=
  jsOr (jsGet e "time") (jsOr (jsGet e "hours") (.num 0))

/-- `entry.category || 'Uncategorized'`. -/
def entryCategory (e : JsObj) : JsValue :=
  jsOr (jsGet e "category") (.str "Uncategorized")

/-- JavaScript `+` as it occurs in the category and total accumulations:
numeric addition unless a string is involved, in which case concatenation. -/
def jsAdd (a b : JsValue) : JsValue :=
  match a, b with
  | .str s, _ => .str (s ++ jsToString b)
  | _, .str s => .str (jsToString a ++ s)
  | _, _ => .num (toNumQ a + toNumQ b)
where
  /-- `Number(v)` for the non-string operands reaching these `+` sites
  (numbers, booleans, `null`; `undefined` cannot reach them because every
  operand is either truthy or a literal `0`). -/
  toNumQ : JsValue → ℚ
    | .num q => q
    | .boolean b => if b then 1 else 0
    | _ => 0

/-- One step of the category-map accumulation:
`categoryMap.set(category, (categoryMap.get(category) || 0) + hours)`. -/
def catAccum (m : List (JsValue × JsValue)) (e : JsObj) : List (JsValue × JsValue) :=
  let category := entryCategory e
  let prev := jsOr ((alGet m category).getD .undefined) (.num 0)
  alSet m category (jsAdd prev (entryHours e))

def buildCategoryMap (entries : List JsObj) : List (JsValue × JsValue) :=
  entries.foldl catAccum []

/-- Step 4 of `mergeAndClassifyData`: walk the course map in insertion order;
a course whose normalized name has a pending group receives the category
breakdown and the raw entries, and the group is deleted so it cannot also
spawn a synthetic instance. -/
def attachPass : List (String × UnifiedCourseData) → TsGroups →
    List (String × UnifiedCourseData) × TsGroups
  | [], g => ([], g)
  | (k, course) :: rest, g =>
    match alGet g course.normalizedCourseName with
    | some entries =>
      let course' := { course with
        categoryBreakdown := some (buildCategoryMap entries),
        rawTimeSpent := some entries }
      let (rest', g') := attachPass rest (alErase g course.normalizedCourseName)
      ((k, course') :: rest', g')
    | none =>
      let (rest', g') := attachPass rest g
      ((k, course) :: rest', g')

/-- The In Progress record synthesized from one leftover time-spent group
(`p.1` is the normalized name, `p.2` its entries). -/
def synthRecordOf (currentYear : ℤ) (p : String × List JsObj) : UnifiedCourseData :=
  { courseName := jsOr (jsGet (p.2.headD []) "courseName") (.str ""),
    normalizedCourseName := p.1,
    reportingYear := .num currentYear,
    totalTime := p.2.foldl (fun sum e => jsAdd sum (entryHours e)) (.num 0),
    year := .num currentYear,
    status := .str "In Progress",
    classification := .inProgress,
    categoryBreakdown := some (buildCategoryMap p.2),
    metadata := [],
    rawTimeSpent := some p.2 }

/-- Step 5 of `mergeAndClassifyData`: one leftover time-spent group becomes an
In Progress instance keyed by the current calendar year. -/
def synthStep (currentYear : ℤ) (cm : List (String × UnifiedCourseData))
    (p : String × List JsObj) : List (String × UnifiedCourseData) :=
  alSet cm
    (createCourseKey (jsOr (jsGet (p.2.headD []) "courseName") (.str ""))
      (.num currentYear))
    (synthRecordOf currentYear p)

structure MergeResult where
  unified : List UnifiedCourseData
  errors : List ValidationError
deriving Repr

/-- The course map and diagnostics after the Legacy and Modern passes
(steps 1–2). -/
def mergeBaseState (legacyData modernData : List JsObj) : MergeState :=
  modernData.enum.foldl modernStep (legacyData.enum.foldl legacyStep ⟨[], []⟩)

/-- The course map and the still-pending groups after the attach pass
(steps 3–4). -/
def mergeAttached (legacyData modernData timeSpentData : List JsObj) :
    List (String × UnifiedCourseData) × TsGroups :=
  attachPass (mergeBaseState legacyData modernData).map (buildTsGroups timeSpentData)

/-- `mergeAndClassifyData`.  The source reads the current calendar year from
the host clock (`new Date().getFullYear()`); it is passed explicitly here. -/
def mergeAndClassifyData (legacyData modernData timeSpentData : List JsObj)
    (currentYear : ℤ) : MergeResult :=
  let st := mergeBaseState legacyData modernData
  let (cm, leftover) := mergeAttached legacyData modernData timeSpentData
  let cm := leftover.foldl (synthStep currentYear) cm
  { unified := cm.map (·.2), errors := st.errors }

/-! ## Aggregation engine -/

/-- Numeric reading of a JavaScript value, used where `computeAnalytics`
divides or compares accumulated sums (all such values are numbers for every
dataset the pipeline produces). -/
def jsNumVal : JsValue → ℚ
  | .num q => q
  | .boolean b => if b then 1 else 0
  | _ => 0

/-- Stable insertion sort modelling `Array.prototype.sort` with a numeric
comparator (`le a b` is `comparator(a, b) <= 0`; ECMAScript sorts are
stable). -/
def insSorted {α : Type} (le : α → α → Bool) (x : α) : List α → List α
  | [] => [x]
  | y :: t => if le y x then y :: insSorted le x t else x :: y :: t

def stableSortBy {α : Type} (le : α → α → Bool) (l : List α) : List α :=
  l.foldl (fun acc x => insSorted le x acc) []

structure YearAgg where
  year : JsValue
  count : ℕ
  totalTime : JsValue
  avgTime : ℚ
deriving Repr

structure StatusAgg where
  status : JsValue
  count : ℕ
  totalTime : JsValue
deriving Repr

structure CategoryAgg where
  category : JsValue
  totalTime : JsValue
  courseCount : ℕ
  avgTimePerCourse : ℚ
deriving Repr

structure TopCourse where
  courseName : JsValue
  totalTime : JsValue
  year : JsValue
  status : JsValue
deriving Repr

structure YearStatusAgg where
  year : JsValue
  legacy : JsValue
  modern : JsValue
  inProgress : JsValue
deriving Repr

structure AggregatedAnalytics where
  totalCourses : ℕ
  totalTimeSpent : JsValue
  completedCourses : ℕ
  inProgressCourses : ℕ
  averageTimePerCourse : ℚ
  legacyCourses : ℕ
  modernCourses : ℕ
  byYear : List YearAgg
  byStatus : List StatusAgg
  byCategory : List CategoryAgg
  topCourses : List TopCourse
  timeByYearAndStatus : List YearStatusAgg
deriving Repr

/-- Insert into an insertion-ordered set (`Set.prototype.add`). -/
def setInsert {α : Type} [DecidableEq α] (s : List α) (x : α) : List α :=
  if x ∈ s then s else s ++ [x]

/-- Per-year accumulation of `computeAnalytics` (count and summed time,
keyed by `course.year || currentYear`). -/
def analyticsYearMap (courses : List UnifiedCourseData) (currentYear : ℤ) :
    List (JsValue × ℕ × JsValue) :=
  courses.foldl
    (fun m c =>
      let y := jsOr c.year (.num currentYear)
      let e := (alGet m y).getD (0, JsValue.num 0)
      alSet m y (e.1 + 1, jsAdd e.2 c.totalTime))
    []

def analyticsByYear (courses : List UnifiedCourseData) (currentYear : ℤ) :
    List YearAgg :=
  stableSortBy (fun a b => decide (jsNumVal a.year ≤ jsNumVal b.year))
    ((analyticsYearMap courses currentYear).map fun p =>
      { year := p.1, count := p.2.1, totalTime := p.2.2,
        avgTime := jsNumVal p.2.2 / p.2.1 })

/-- Per-status accumulation (keyed by the free-text `status` value). -/
def analyticsStatusMap (courses : List UnifiedCourseData) :
    List (JsValue × ℕ × JsValue) :=
  courses.foldl
    (fun m c =>
      let e := (alGet m c.status).getD (0, JsValue.num 0)
      alSet m c.status (e.1 + 1, jsAdd e.2 c.totalTime))
    []

def analyticsByStatus (courses : List UnifiedCourseData) : List StatusAgg :=
  (analyticsStatusMap courses).map fun p =>
    { status := p.1, count := p.2.1, totalTime := p.2.2 }

/-- Per-category accumulation over every `categoryBreakdown`, tracking the
distinct contributing normalized course names. -/
def analyticsCategoryMap (courses : List UnifiedCourseData) :
    List (JsValue × JsValue × List String) :=
  courses.foldl
    (fun m c =>
      match c.categoryBreakdown with
      | some breakdown =>
        breakdown.foldl
          (fun m p =>
            let e := (alGet m p.1).getD (JsValue.num 0, [])
            alSet m p.1 (jsAdd e.1 p.2, setInsert e.2 c.normalizedCourseName))
          m
      | none => m)
    []

def analyticsByCategory (courses : List UnifiedCourseData) : List CategoryAgg :=
  stableSortBy (fun a b => decide (jsNumVal b.totalTime ≤ jsNumVal a.totalTime))
    ((analyticsCategoryMap courses).map fun p =>
      { category := p.1, totalTime := p.2.1, courseCount := p.2.2.length,
        avgTimePerCourse := jsNumVal p.2.1 / p.2.2.length })

def analyticsTopCourses (courses : List UnifiedCourseData) : List TopCourse :=
  ((stableSortBy (fun a b => decide (jsNumVal b.totalTime ≤ jsNumVal a.totalTime))
      courses).take 20).map fun c =>
    { courseName := c.courseName, totalTime := c.totalTime,
      year := c.year, status := c.status }

/-- Per-year split of time into the three classifications. -/
def analyticsYearStatusMap (courses : List UnifiedCourseData) (currentYear : ℤ) :
    List (JsValue × JsValue × JsValue × JsValue) :=
  courses.foldl
    (fun m c =>
      let y := jsOr c.year (.num currentYear)
      let e := (alGet m y).getD (JsValue.num 0, JsValue.num 0, JsValue.num 0)
      let f :=
        match c.classification with
        | .legacy => (jsAdd e.1 c.totalTime, e.2.1, e.2.2)
        | .modern => (e.1, jsAdd e.2.1 c.totalTime, e.2.2)
        | .inProgress => (e.1, e.2.1, jsAdd e.2.2 c.totalTime)
      alSet m y f)
    []

def analyticsTimeByYearAndStatus (courses : List UnifiedCourseData)
    (currentYear : ℤ) : List YearStatusAgg :=
  stableSortBy (fun a b => decide (jsNumVal a.year ≤ jsNumVal b.year))
    ((analyticsYearStatusMap courses currentYear).map fun p =>
      { year := p.1, legacy := p.2.1, modern := p.2.2.1, inProgress := p.2.2.2 })

def analyticsTotalTime (courses : List UnifiedCourseData) : JsValue :=
  courses.foldl (fun s c => jsAdd s c.totalTime) (JsValue.num 0)

/-- `computeAnalytics`.  The current calendar year (`new Date().getFullYear()`
used for the `course.year || ...` fallbacks) is passed explicitly. -/
def computeAnalytics (courses : List UnifiedCourseData) (currentYear : ℤ) :
    AggregatedAnalytics :=
  let totalCourses := courses.length
  let totalTimeSpent := analyticsTotalTime courses
  { totalCourses := totalCourses,
    totalTimeSpent := totalTimeSpent,
    completedCourses :=
      (courses.filter fun c =>
        !decide (c.classification = Classification.inProgress)).length,
    inProgressCourses :=
      (courses.filter fun c =>
        decide (c.classification = Classification.inProgress)).length,
    averageTimePerCourse :=
      if totalCourses > 0 then jsNumVal totalTimeSpent / totalCourses else 0,
    legacyCourses :=
      (courses.filter fun c =>
        decide (c.classification = Classification.legacy)).length,
    modernCourses :=
      (courses.filter fun c =>
        decide (c.classification = Classification.modern)).length,
    byYear := analyticsByYear courses currentYear,
    byStatus := analyticsByStatus courses,
    byCategory := analyticsByCategory courses,
    topCourses := analyticsTopCourses courses,
    timeByYearAndStatus := analyticsTimeByYearAndStatus courses currentYear }
/-! ## The orchestrating upload handler (`handleFilesUploaded`, `App.tsx`)

Modelled from the point where the three files have been decoded into row
arrays (the decode itself is an external capability).  The handler
accumulates the three normalizers' diagnostics, halts when any has severity
`error`, and otherwise runs reconciliation and aggregation. -/

inductive PipelineOutcome where
  | halted (errors : List ValidationError)
  | done (unified : List UnifiedCourseData) (analytics : AggregatedAnalytics)
      (errors : List ValidationError)

def isCritical (e : ValidationError) : Bool := e.severity = .error

def handleFilesUploaded (legacyRaw modernRaw timeSpentRaw : List JsObj)
    (currentYear : ℤ) : PipelineOutcome :=
  let legacyResult := normalizeLegacyData legacyRaw
  let modernResult := normalizeModernData modernRaw
  let timeSpentResult := normalizeTimeSpentData timeSpentRaw
  let allErrors := legacyResult.errors ++ modernResult.errors ++ timeSpentResult.errors
  if (allErrors.filter isCritical).length > 0 then
    .halted allErrors
  else
    let mergeResult := mergeAndClassifyData legacyResult.data modernResult.data
      timeSpentResult.data currentYear
    let analyticsData := computeAnalytics mergeResult.unified currentYear
    .done mergeResult.unified analyticsData (allErrors ++ mergeResult.errors)

/-! ## Association-list lemmas -/

section AssocLemmas

variable {κ α : Type} [DecidableEq κ]

theorem alGet_alSet_self (m : List (κ × α)) (k : κ) (v : α) :
    alGet (alSet m k v) k = some v := by
  induction m with
  | nil => simp [alSet, alGet]
  | cons p t ih =>
    by_cases h : p.1 = k
    · simp [alSet, alGet, h]
    · simp [alSet, alGet, h, ih]

theorem alGet_alSet_ne (m : List (κ × α)) (k k' : κ) (v : α) (h : k ≠ k') :
    alGet (alSet m k v) k' = alGet m k' := by
  induction m with
  | nil => simp [alSet, alGet, h]
  | cons p t ih =>
    by_cases hp : p.1 = k
    · simp [alSet, alGet, hp, h, Ne.symm h]
    · by_cases hp' : p.1 = k'
      · simp [alSet, alGet, hp, hp', Ne.symm h]
      · simp [alSet, alGet, hp, hp', ih]

theorem alGet_alErase_ne (m : List (κ × α)) (k k' : κ) (h : k ≠ k') :
    alGet (alErase m k) k' = alGet m k' := by
  induction m with
  | nil => simp [alErase]
  | cons p t ih =>
    by_cases hp : p.1 = k
    · simp [alErase, alGet, hp, h]
    · by_cases hp' : p.1 = k'
      · simp [alErase, alGet, hp, hp', Ne.symm h]
      · simp [alErase, alGet, hp, hp', ih]

theorem alGet_alErase_none (m : List (κ × α)) (k k' : κ) (h : alGet m k' = none) :
    alGet (alErase m k) k' = none := by
  induction m with
  | nil => exact h
  | cons p t ih =>
    by_cases hp' : p.1 = k'
    · rw [alGet, if_pos hp'] at h
      exact absurd h (by simp)
    · rw [alGet, if_neg hp'] at h
      by_cases hp : p.1 = k
      · rw [alErase, if_pos hp]
        exact h
      · rw [alErase, if_neg hp, alGet, if_neg hp']
        exact ih h

theorem mem_alSet (m : List (κ × α)) (k : κ) (v : α) (p : κ × α)
    (h : p ∈ alSet m k v) : p ∈ m ∨ p = (k, v) := by
  induction m with
  | nil => simpa [alSet] using h
  | cons q t ih =>
    by_cases hq : q.1 = k
    · rw [alSet, if_pos hq] at h
      rcases List.mem_cons.mp h with h1 | h1
      · exact Or.inr h1
      · exact Or.inl (List.mem_cons_of_mem q h1)
    · rw [alSet, if_neg hq] at h
      rcases List.mem_cons.mp h with h1 | h1
      · exact Or.inl (h1 ▸ List.mem_cons_self q t)
      · rcases ih h1 with h2 | h2
        · exact Or.inl (List.mem_cons_of_mem q h2)
        · exact Or.inr h2

theorem mem_alErase (m : List (κ × α)) (k : κ) (p : κ × α)
    (h : p ∈ alErase m k) : p ∈ m := by
  induction m with
  | nil => exact h
  | cons q t ih =>
    by_cases hq : q.1 = k
    · rw [alErase, if_pos hq] at h
      exact List.mem_cons_of_mem q h
    · rw [alErase, if_neg hq] at h
      rcases List.mem_cons.mp h with h1 | h1
      · exact h1 ▸ List.mem_cons_self q t
      · exact List.mem_cons_of_mem q (ih h1)

/-- The keys of an association list. -/
def alKeys (m : List (κ × α)) : List κ := m.map Prod.fst

theorem alGet_eq_none_of_not_mem_keys (m : List (κ × α)) (k : κ)
    (h : k ∉ alKeys m) : alGet m k = none := by
  induction m with
  | nil => simp [alGet]
  | cons p t ih =>
    simp only [alKeys, List.map_cons, List.mem_cons, not_or] at h
    have h1 : p.1 ≠ k := fun hh => h.1 hh.symm
    rw [alGet, if_neg h1]
    exact ih (by simpa [alKeys] using h.2)

theorem alGet_alErase_self_of_nodup (m : List (κ × α)) (k : κ)
    (h : (alKeys m).Nodup) : alGet (alErase m k) k = none := by
  induction m with
  | nil => simp [alErase, alGet]
  | cons p t ih =>
    simp only [alKeys, List.map_cons, List.nodup_cons] at h
    by_cases hp : p.1 = k
    · rw [alErase, if_pos hp]
      exact alGet_eq_none_of_not_mem_keys t k (by simpa [alKeys, hp] using h.1)
    · rw [alErase, if_neg hp, alGet, if_neg hp]
      exact ih h.2

theorem alKeys_alErase_sublist (m : List (κ × α)) (k : κ) :
    (alKeys (alErase m k)).Sublist (alKeys m) := by
  induction m with
  | nil => simp [alErase]
  | cons p t ih =>
    by_cases hp : p.1 = k
    · rw [alErase, if_pos hp]
      exact List.sublist_cons_self p.1 (alKeys t)
    · rw [alErase, if_neg hp]
      simpa [alKeys] using ih.cons₂ p.1

theorem alKeys_alErase_nodup (m : List (κ × α)) (k : κ)
    (h : (alKeys m).Nodup) : (alKeys (alErase m k)).Nodup :=
  (alKeys_alErase_sublist m k).nodup h

theorem alGet_of_mem_of_nodup (m : List (κ × α)) (k : κ) (v : α)
    (hnd : (alKeys m).Nodup) (h : (k, v) ∈ m) : alGet m k = some v := by
  induction m with
  | nil => simp at h
  | cons p t ih =>
    simp only [alKeys, List.map_cons, List.nodup_cons] at hnd
    rcases List.mem_cons.mp h with h1 | h1
    · simp [alGet, ← h1]
    · have hk : p.1 ≠ k := by
        intro hh
        exact hnd.1 (hh ▸ (List.mem_map.mpr ⟨(k, v), h1, rfl⟩))
      rw [alGet, if_neg hk]
      exact ih hnd.2 h1

theorem mem_of_alGet_eq_some (m : List (κ × α)) (k : κ) (v : α)
    (h : alGet m k = some v) : (k, v) ∈ m := by
  induction m with
  | nil => simp [alGet] at h
  | cons p t ih =>
    by_cases hp : p.1 = k
    · rw [alGet, if_pos hp] at h
      injection h with h
      have hkv : (k, v) = p := by rw [← hp, ← h]
      exact hkv ▸ List.mem_cons_self p t
    · rw [alGet, if_neg hp] at h
      exact List.mem_cons_of_mem p (ih h)

theorem alSet_of_not_has (m : List (κ × α)) (k : κ) (v : α)
    (h : alGet m k = none) : alSet m k v = m ++ [(k, v)] := by
  induction m with
  | nil => simp [alSet]
  | cons p t ih =>
    by_cases hp : p.1 = k
    · rw [alGet, if_pos hp] at h
      exact absurd h (by simp)
    · rw [alGet, if_neg hp] at h
      rw [alSet, if_neg hp, ih h]
      simp

theorem alKeys_alSet_nodup (m : List (κ × α)) (k : κ) (v : α)
    (h : (alKeys m).Nodup) : (alKeys (alSet m k v)).Nodup := by
  induction m with
  | nil => simp [alSet, alKeys]
  | cons p t ih =>
    simp only [alKeys, List.map_cons, List.nodup_cons] at h
    by_cases hp : p.1 = k
    · rw [alSet, if_pos hp]
      refine List.nodup_cons.mpr ⟨?_, h.2⟩
      simpa [hp] using h.1
    · rw [alSet, if_neg hp]
      refine List.nodup_cons.mpr ⟨?_, by simpa [alKeys] using ih h.2⟩
      intro hmem
      rcases List.mem_map.mp hmem with ⟨q, hq, hq1⟩
      rcases mem_alSet t k v q hq with h2 | h2
      · exact h.1 (hq1 ▸ List.mem_map.mpr ⟨q, h2, rfl⟩)
      · rw [h2] at hq1
        exact hp (by simpa using hq1.symm)

end AssocLemmas

/-! ## Lemmas about the attach pass (step 4) -/

theorem attachPass_fst_length (cm : List (String × UnifiedCourseData)) (g : TsGroups) :
    (attachPass cm g).1.length = cm.length := by
  induction cm generalizing g with
  | nil => simp [attachPass]
  | cons p t ih =>
    rw [attachPass]
    cases h : alGet g p.2.normalizedCourseName with
    | some es => simp [h, ih]
    | none => simp [h, ih]

theorem attachPass_leftover_get_none (cm : List (String × UnifiedCourseData))
    (g : TsGroups) (nm : String) (h : alGet g nm = none) :
    alGet (attachPass cm g).2 nm = none := by
  induction cm generalizing g with
  | nil => simpa [attachPass] using h
  | cons p t ih =>
    rw [attachPass]
    cases hg : alGet g p.2.normalizedCourseName with
    | some es =>
      simp only [hg]
      exact ih (alErase g p.2.normalizedCourseName) (alGet_alErase_none _ _ _ h)
    | none =>
      simp only [hg]
      exact ih g h

theorem attachPass_leftover_sub (cm : List (String × UnifiedCourseData))
    (g : TsGroups) (nm : String) (hnd : (alKeys g).Nodup) :
    alGet (attachPass cm g).2 nm = none ∨ alGet (attachPass cm g).2 nm = alGet g nm := by
  induction cm generalizing g with
  | nil => right; simp [attachPass]
  | cons p t ih =>
    rw [attachPass]
    cases hg : alGet g p.2.normalizedCourseName with
    | some es =>
      simp only [hg]
      have hnd' := alKeys_alErase_nodup g p.2.normalizedCourseName hnd
      rcases ih (alErase g p.2.normalizedCourseName) hnd' with h1 | h1
      · exact Or.inl h1
      · by_cases hnm : p.2.normalizedCourseName = nm
        · subst hnm
          exact Or.inl (h1.trans (alGet_alErase_self_of_nodup g _ hnd))
        · exact Or.inr (h1.trans (alGet_alErase_ne g _ nm hnm))
    | none =>
      simp only [hg]
      exact ih g hnd

theorem attachPass_leftover_mem (cm : List (String × UnifiedCourseData))
    (g : TsGroups) (p : String × List JsObj) (h : p ∈ (attachPass cm g).2) : p ∈ g := by
  induction cm generalizing g with
  | nil => simpa [attachPass] using h
  | cons q t ih =>
    rw [attachPass] at h
    cases hg : alGet g q.2.normalizedCourseName with
    | some es =>
      simp only [hg] at h
      exact mem_alErase g _ p (ih _ h)
    | none =>
      simp only [hg] at h
      exact ih g h

theorem attachPass_leftover_nodup (cm : List (String × UnifiedCourseData))
    (g : TsGroups) (h : (alKeys g).Nodup) : (alKeys (attachPass cm g).2).Nodup := by
  induction cm generalizing g with
  | nil => simpa [attachPass] using h
  | cons q t ih =>
    rw [attachPass]
    cases hg : alGet g q.2.normalizedCourseName with
    | some es =>
      simp only [hg]
      exact ih _ (alKeys_alErase_nodup g _ h)
    | none =>
      simp only [hg]
      exact ih g h

/-! ## Shared concrete inputs used by witnesses and counterexamples -/

/-- The Legacy row of the spec's first scenario. -/
def exLegacyRow : JsObj :=
  [("Course Name", .str "Fire Safety 101"), ("Time spent", .str "2:30"),
   ("Reporting", .str "2023-05-01")]

/-- A Modern row sharing the Legacy row's normalized name and year 2023. -/
def exModernRow : JsObj :=
  [("Course Name", .str "fire safety 101"), ("Time spent", .str "4"),
   ("Reporting", .str "2023-06-01")]

/-- A time-entry row matching no Legacy/Modern course. -/
def exTsNewRow : JsObj :=
  [("Course Name", .str "New Course"), ("Category", .str "Dev"), ("Hours", .num 2)]

/-- A time-entry row matching the Fire course by normalized name. -/
def exTsFireRow : JsObj :=
  [("Course Name", .str "Fire"), ("Category", .str "X"), ("Hours", .num 1)]

/-- Two Legacy rows with the same course name in different reporting years. -/
def exLegacyFire2023 : JsObj :=
  [("Course Name", .str "Fire"), ("Reporting", .str "2023-01-01")]

def exLegacyFire2024 : JsObj :=
  [("Course Name", .str "Fire"), ("Reporting", .str "2024-01-01")]

/-- A row whose course name is empty (normalizer `error` severity). -/
def exBadLegacyRow : JsObj := [("Course Name", .str ""), ("Time spent", .str "1")]

def dfltUnified : UnifiedCourseData :=
  { courseName := .undefined, normalizedCourseName := "", reportingYear := .undefined,
    totalTime := .undefined, year := .undefined, status := .undefined,
    classification := .legacy, metadata := [] }

/-! ## C5 — the critical-error gate -/

/-- The diagnostics accumulated from the three normalizers, in source order. -/
def allNormErrors (legacyRaw modernRaw timeSpentRaw : List JsObj) : List ValidationError :=
  (normalizeLegacyData legacyRaw).errors ++ (normalizeModernData modernRaw).errors
    ++ (normalizeTimeSpentData timeSpentRaw).errors

/-- C5: reconciliation and aggregation run exactly when the normalizers'
accumulated diagnostics contain no error-severity entry; with at least one
error the handler halts, surfacing exactly the accumulated diagnostics and
producing no unified dataset or analytics. -/
theorem c5_critical_error_gate (l m t : List JsObj) (cy : ℤ) :
    ((∃ u a es, handleFilesUploaded l m t cy = PipelineOutcome.done u a es) ↔
      (allNormErrors l m t).filter isCritical = []) ∧
    ((allNormErrors l m t).filter isCritical ≠ [] →
      handleFilesUploaded l m t cy = PipelineOutcome.halted (allNormErrors l m t)) := by
  have hunfold : handleFilesUploaded l m t cy =
      if ((allNormErrors l m t).filter isCritical).length > 0 then
        PipelineOutcome.halted (allNormErrors l m t)
      else
        PipelineOutcome.done
          (mergeAndClassifyData (normalizeLegacyData l).data (normalizeModernData m).data
            (normalizeTimeSpentData t).data cy).unified
          (computeAnalytics
            (mergeAndClassifyData (normalizeLegacyData l).data (normalizeModernData m).data
              (normalizeTimeSpentData t).data cy).unified cy)
          (allNormErrors l m t ++
            (mergeAndClassifyData (normalizeLegacyData l).data (normalizeModernData m).data
              (normalizeTimeSpentData t).data cy).errors) := rfl
  by_cases h : (allNormErrors l m t).filter isCritical = []
  · have hlen : ¬ ((allNormErrors l m t).filter isCritical).length > 0 := by
      simp [h]
    have hdone := hunfold.trans (if_neg hlen)
    exact ⟨⟨fun _ => h, fun _ => ⟨_, _, _, hdone⟩⟩, fun hne => absurd h hne⟩
  · have hlen : ((allNormErrors l m t).filter isCritical).length > 0 :=
      List.length_pos.mpr h
    have hhalt : handleFilesUploaded l m t cy =
        PipelineOutcome.halted (allNormErrors l m t) := by
      rw [hunfold, if_pos hlen]
    refine ⟨⟨fun ⟨u, a, es, hdone⟩ => ?_, fun he => absurd he h⟩, fun _ => hhalt⟩
    rw [hhalt] at hdone
    exact absurd hdone (by simp)

/-- C5 witness: a Legacy row with an empty course name produces an
error-severity diagnostic, and the handler halts with the accumulated
diagnostics. -/
theorem c5_critical_error_gate_witness :
    handleFilesUploaded [exBadLegacyRow] [] [] 2025 =
      PipelineOutcome.halted (allNormErrors [exBadLegacyRow] [] []) :=
  (c5_critical_error_gate [exBadLegacyRow] [] [] 2025).2
    (by with_unfolding_all decide)

/-! ## C6 — `extractNumber` on plain decimal numerals -/

set_option maxRecDepth 40000 in
/-- C6 (code bug evidence): the fallback `replace(/[^\\d.-]/g, '')` keeps only
backslash, the letter `d`, dot and minus — it deletes the digits themselves —
so plain decimal numerals parse to the 0 sentinel instead of their value. -/
theorem c6_plain_numeral_yields_zero :
    extractNumber (.str "12.5") = 0 ∧ extractNumber (.str "7") = 0 ∧
      extractNumber (.str "2:30") = 5/2 := by
  with_unfolding_all decide

/-! ## C7 — the Legacy scenario row -/

set_option maxRecDepth 200000 in
/-- C7: normalizing the Legacy row
`{Course Name: "Fire Safety 101", "Time spent": "2:30", Reporting: "2023-05-01"}`
produces no diagnostic at all (in particular none of error severity) and one
record with course name "Fire Safety 101", total time 2.5 fractional hours and
year 2023. -/
theorem c7_legacy_scenario :
    (normalizeLegacyData [exLegacyRow]).errors = [] ∧
    ((normalizeLegacyData [exLegacyRow]).data.map fun r =>
        (jsGet r "courseName", jsGet r "totalTime", jsGet r "year")) =
      [(.str "Fire Safety 101", .num (5/2), .num 2023)] := by
  with_unfolding_all decide

/-! ## C9 — determinism of the pipeline -/

/-- C9: the pipeline is a pure function of the decoded rows and the current
calendar year — two runs on identical inputs give identical unified data,
analytics and diagnostics. -/
theorem c9_pipeline_deterministic (l m t l' m' t' : List JsObj) (cy cy' : ℤ)
    (hl : l = l') (hm : m = m') (ht : t = t') (hcy : cy = cy') :
    handleFilesUploaded l m t cy = handleFilesUploaded l' m' t' cy' := by
  subst hl; subst hm; subst ht; subst hcy; rfl

/-- C9 witness at a concrete upload. -/
theorem c9_pipeline_deterministic_witness :
    handleFilesUploaded [exLegacyRow] [] [exTsNewRow] 2025 =
      handleFilesUploaded [exLegacyRow] [] [exTsNewRow] 2025 :=
  c9_pipeline_deterministic [exLegacyRow] [] [exTsNewRow] [exLegacyRow] [] [exTsNewRow]
    2025 2025 rfl rfl rfl rfl

/-! ## C10 — totality of the extractors -/

/-- C10: `extractNumber` and `extractYear` are total functions of an arbitrary
cell value: they always return (a rational, respectively an optional year),
and falsy input yields the documented sentinels 0 and `undefined`. -/
theorem c10_extractors_total (v : JsValue) :
    (∃ q, extractNumber v = q) ∧ (∃ y, extractYear v = y) ∧
      (truthy v = false → extractNumber v = 0 ∧ extractYear v = none) := by
  refine ⟨⟨_, rfl⟩, ⟨_, rfl⟩, fun h => ⟨?_, ?_⟩⟩
  · cases v with
    | num q =>
      have : q = 0 := by simpa [truthy] using h
      simp [extractNumber, this]
    | str s => simp [extractNumber, h]
    | boolean b => simp [extractNumber, h]
    | null => simp [extractNumber, h]
    | undefined => simp [extractNumber, h]
  · simp [extractYear, h]

/-- C10 witness at the falsy value `null`. -/
theorem c10_extractors_total_witness :
    extractNumber JsValue.null = 0 ∧ extractYear JsValue.null = none :=
  (c10_extractors_total JsValue.null).2.2 rfl

/-! ## C8 — missing course names in the Time Spent file -/

/-- Closed form of the `normalizeTimeSpentData` fold from an arbitrary
accumulator whose diagnostics all carry the "Course Name" field. -/
theorem tsFold_spec (l : List (ℕ × JsObj)) (acc : NormalizeResult)
    (hcn : ∀ e ∈ acc.errors, e.field = some "Course Name") :
    l.foldl tsStep acc =
      { data := acc.data ++ (l.map Prod.snd).filterMap tsRowParsed,
        errors := acc.errors ++
          ((l.filter fun p => (tsRowParsed p.2).isNone).take (5 - acc.errors.length)).map
            fun p => tsMissingNameWarning p.1 p.2 } := by
  induction l generalizing acc with
  | nil => simp
  | cons p t ih =>
    rw [List.foldl_cons]
    cases hp : tsRowParsed p.2 with
    | some r =>
      have hstep : tsStep acc p = { acc with data := acc.data ++ [r] } := by
        unfold tsStep; rw [hp]
      rw [hstep, ih _ (by simpa using hcn)]
      simp [hp, List.append_assoc]
    | none =>
      have hfeq : acc.errors.filter (fun e => decide (e.field = some "Course Name"))
          = acc.errors :=
        List.filter_eq_self.mpr fun e he => by simpa using hcn e he
      by_cases hlt : acc.errors.length < 5
      · have hstep : tsStep acc p =
            { acc with errors := acc.errors ++ [tsMissingNameWarning p.1 p.2] } := by
          unfold tsStep
          rw [hp, if_pos (by rw [hfeq]; exact hlt)]
        have hcn' : ∀ e ∈ acc.errors ++ [tsMissingNameWarning p.1 p.2],
            e.field = some "Course Name" := by
          intro e he
          rcases List.mem_append.mp he with h1 | h1
          · exact hcn e h1
          · simp at h1; subst h1; rfl
        rw [hstep, ih _ hcn']
        have htake : 5 - acc.errors.length = (5 - (acc.errors.length + 1)) + 1 := by omega
        simp [hp, htake, List.append_assoc]
      · have hstep : tsStep acc p = acc := by
          unfold tsStep
          rw [hp, if_neg (by rw [hfeq]; exact hlt)]
        rw [hstep, ih _ hcn]
        have hz : 5 - acc.errors.length = 0 := by omega
        simp [hp, hz]

/-- C8: every missing-course-name row of the Time Spent file is excluded while
all other rows still produce records, and the recorded diagnostics are exactly
one warning per such row — each carrying the row's available column names —
for the first five failures, with later failures dropped silently. -/
theorem c8_ts_missing_name_cap (rows : List JsObj) :
    (normalizeTimeSpentData rows).data = rows.filterMap tsRowParsed ∧
    (normalizeTimeSpentData rows).errors =
      ((rows.enum.filter fun p => (tsRowParsed p.2).isNone).take 5).map
        fun p => tsMissingNameWarning p.1 p.2 := by
  unfold normalizeTimeSpentData
  rw [tsFold_spec _ ⟨[], []⟩ (by intro e he; simp at he)]
  constructor
  · simp [List.enum_map_snd]
  · simp

/-! ## C3 — time-entry attachment is first-instance-wins, not for-every-instance -/

set_option maxRecDepth 400000 in
/-- C3 counterexample: two Legacy instances of "Fire" (years 2023 and 2024)
share the normalized name of the sole time-entry group, but only the first
instance in map order receives the category breakdown and raw entries; the
second matching instance receives neither — refuting the claim that *every*
instance whose name matches a time-entry gets the breakdown. -/
theorem c3_counterexample :
    ((mergeAndClassifyData (normalizeLegacyData [exLegacyFire2023, exLegacyFire2024]).data []
        (normalizeTimeSpentData [exTsFireRow]).data 2025).unified.map fun u =>
        (u.normalizedCourseName, u.categoryBreakdown.isNone, u.rawTimeSpent.isNone)) =
      [("fire", false, false), ("fire", true, true)] ∧
    ((normalizeTimeSpentData [exTsFireRow]).data.map fun e =>
        normalizeCourseName (jsGet e "courseName")) = ["fire"] := by
  with_unfolding_all decide

/-- C3 amended: of the unified instances whose normalized name matches a
pending time-entry group, the *first* one in course-map insertion order
receives the group's category breakdown and raw entries, and the normalized
name is removed from the pending pool (so it spawns no synthetic instance);
instances at later positions sharing the name receive nothing. -/
theorem c3_first_instance_attaches
    (cm : List (String × UnifiedCourseData)) (g : TsGroups) (i : ℕ)
    (k : String) (u : UnifiedCourseData) (es : List JsObj)
    (hnd : (alKeys g).Nodup)
    (hget : cm.get? i = some (k, u))
    (hes : alGet g u.normalizedCourseName = some es)
    (hfirst : ∀ j p, j < i → cm.get? j = some p →
        p.2.normalizedCourseName ≠ u.normalizedCourseName) :
    (attachPass cm g).1.get? i =
      some (k, { u with categoryBreakdown := some (buildCategoryMap es),
                        rawTimeSpent := some es }) ∧
    alGet (attachPass cm g).2 u.normalizedCourseName = none := by
  induction cm generalizing i g with
  | nil => simp at hget
  | cons q rest ih =>
    obtain ⟨k0, u0⟩ := q
    cases i with
    | zero =>
      rw [List.get?_cons_zero] at hget
      injection hget with hget
      injection hget with hk hu
      subst hk; subst hu
      rw [attachPass]
      simp only [hes]
      refine ⟨rfl, ?_⟩
      exact attachPass_leftover_get_none rest _ _
        (alGet_alErase_self_of_nodup g _ hnd)
    | succ j =>
      have hne : u0.normalizedCourseName ≠ u.normalizedCourseName :=
        hfirst 0 (k0, u0) (Nat.succ_pos j) (List.get?_cons_zero)
      rw [List.get?_cons_succ] at hget
      rw [attachPass]
      cases hg0 : alGet g u0.normalizedCourseName with
      | some es0 =>
        simp only [hg0]
        have hnd' := alKeys_alErase_nodup g u0.normalizedCourseName hnd
        have hes' : alGet (alErase g u0.normalizedCourseName) u.normalizedCourseName
            = some es := by
          rw [alGet_alErase_ne g _ _ hne]
          exact hes
        have hfirst' : ∀ j' p, j' < j → rest.get? j' = some p →
            p.2.normalizedCourseName ≠ u.normalizedCourseName := fun j' p hj hp =>
          hfirst (j' + 1) p (Nat.succ_lt_succ hj) (by simpa using hp)
        exact ih _ j hnd' hget hes' hfirst'
      | none =>
        simp only [hg0]
        have hfirst' : ∀ j' p, j' < j → rest.get? j' = some p →
            p.2.normalizedCourseName ≠ u.normalizedCourseName := fun j' p hj hp =>
          hfirst (j' + 1) p (Nat.succ_lt_succ hj) (by simpa using hp)
        exact ih _ j hnd hget hes hfirst'

set_option maxRecDepth 1000000 in
/-- C3 amended witness: in the two-instance "Fire" example the first instance
(position 0) receives the breakdown and the pool loses the name. -/
theorem c3_first_instance_attaches_witness :
    (attachPass (mergeBaseState (normalizeLegacyData [exLegacyFire2023, exLegacyFire2024]).data []).map
        (buildTsGroups (normalizeTimeSpentData [exTsFireRow]).data)).1.get? 0 =
      some (((mergeBaseState (normalizeLegacyData [exLegacyFire2023, exLegacyFire2024]).data []).map.getD 0 ("", dfltUnified)).1,
        { ((mergeBaseState (normalizeLegacyData [exLegacyFire2023, exLegacyFire2024]).data []).map.getD 0 ("", dfltUnified)).2 with
            categoryBreakdown := some (buildCategoryMap
              ((alGet (buildTsGroups (normalizeTimeSpentData [exTsFireRow]).data)
                (((mergeBaseState (normalizeLegacyData [exLegacyFire2023, exLegacyFire2024]).data []).map.getD 0 ("", dfltUnified)).2.normalizedCourseName)).getD [])),
            rawTimeSpent := some
              ((alGet (buildTsGroups (normalizeTimeSpentData [exTsFireRow]).data)
                (((mergeBaseState (normalizeLegacyData [exLegacyFire2023, exLegacyFire2024]).data []).map.getD 0 ("", dfltUnified)).2.normalizedCourseName)).getD []) }) ∧
    alGet (attachPass (mergeBaseState (normalizeLegacyData [exLegacyFire2023, exLegacyFire2024]).data []).map
        (buildTsGroups (normalizeTimeSpentData [exTsFireRow]).data)).2
      (((mergeBaseState (normalizeLegacyData [exLegacyFire2023, exLegacyFire2024]).data []).map.getD 0 ("", dfltUnified)).2.normalizedCourseName) = none :=
  c3_first_instance_attaches
    (mergeBaseState (normalizeLegacyData [exLegacyFire2023, exLegacyFire2024]).data []).map
    (buildTsGroups (normalizeTimeSpentData [exTsFireRow]).data) 0
    ((mergeBaseState (normalizeLegacyData [exLegacyFire2023, exLegacyFire2024]).data []).map.getD 0 ("", dfltUnified)).1
    ((mergeBaseState (normalizeLegacyData [exLegacyFire2023, exLegacyFire2024]).data []).map.getD 0 ("", dfltUnified)).2
    ((alGet (buildTsGroups (normalizeTimeSpentData [exTsFireRow]).data)
      (((mergeBaseState (normalizeLegacyData [exLegacyFire2023, exLegacyFire2024]).data []).map.getD 0 ("", dfltUnified)).2.normalizedCourseName)).getD [])
    (by with_unfolding_all decide)
    (by with_unfolding_all decide)
    (by with_unfolding_all decide)
    (fun j p hj _ => absurd hj (Nat.not_lt_zero j))

/-! ## C4 — category conservation -/

/-- The declared type of a `TimeSpentRecord`'s `time`/`hours` fields:
a number or absent. -/
def isNumOrUndef : JsValue → Bool
  | .num _ => true
  | .undefined => true
  | _ => false

/-- The time-entry records matching a normalized course name. -/
def tsEntriesFor (ts : List JsObj) (nm : String) : List JsObj :=
  ts.filter fun e => decide (normalizeCourseName (jsGet e "courseName") = nm)

/-- Numeric sum of the values of a category map. -/
def sumVals (m : List (JsValue × JsValue)) : ℚ :=
  (m.map fun p => jsNumVal p.2).sum

theorem buildTsGroups_getD (ts : List JsObj) (nm : String) :
    (alGet (buildTsGroups ts) nm).getD [] = tsEntriesFor ts nm := by
  suffices h : ∀ (l : List JsObj) (g : TsGroups),
      (alGet (l.foldl addTsEntry g) nm).getD [] = (alGet g nm).getD [] ++ tsEntriesFor l nm by
    simpa [buildTsGroups, alGet] using h ts []
  intro l
  induction l with
  | nil => simp [tsEntriesFor]
  | cons e t ih =>
    intro g
    rw [List.foldl_cons, ih]
    by_cases he : normalizeCourseName (jsGet e "courseName") = nm
    · rw [addTsEntry, he, alGet_alSet_self]
      simp [tsEntriesFor, he]
    · rw [addTsEntry, alGet_alSet_ne _ _ _ _ he]
      simp [tsEntriesFor, he]

theorem buildTsGroups_nodup (ts : List JsObj) : (alKeys (buildTsGroups ts)).Nodup := by
  suffices h : ∀ (l : List JsObj) (g : TsGroups), (alKeys g).Nodup →
      (alKeys (l.foldl addTsEntry g)).Nodup by
    exact h ts [] (by simp [alKeys])
  intro l
  induction l with
  | nil => exact fun g hg => hg
  | cons e t ih =>
    intro g hg
    exact ih _ (alKeys_alSet_nodup _ _ _ hg)

theorem buildTsGroups_get_eq (ts : List JsObj) (nm : String) (es : List JsObj)
    (h : alGet (buildTsGroups ts) nm = some es) : es = tsEntriesFor ts nm := by
  have := buildTsGroups_getD ts nm
  rw [h] at this
  simpa using this

/-- The map after a Modern step: unchanged on a duplicate key, otherwise the
new record is inserted. -/
theorem modernStep_map (st : MergeState) (i : ℕ) (modern : JsObj) :
    (modernStep st (i, modern)).map =
      if alHas st.map
          (createCourseKey (jsGet modern "courseName") (recordYearOf modern .modern 2026))
      then st.map
      else alSet st.map
        (createCourseKey (jsGet modern "courseName") (recordYearOf modern .modern 2026))
        (modernUnifiedOf modern) := by
  by_cases hdup : alHas st.map
      (createCourseKey (jsGet modern "courseName") (recordYearOf modern .modern 2026)) = true
  · rw [if_pos hdup]
    unfold modernStep
    simp only [hdup, if_true]
  · rw [if_neg hdup]
    unfold modernStep
    simp only [Bool.not_eq_true] at hdup
    simp only [hdup, Bool.false_eq_true, if_false]

/-- After steps 1–2 every instance is Legacy/Modern-classified with no
category breakdown and no attached time entries. -/
theorem mergeBaseState_inv (ld md : List JsObj) :
    ∀ p ∈ (mergeBaseState ld md).map,
      p.2.categoryBreakdown = none ∧ p.2.rawTimeSpent = none ∧
        p.2.classification ≠ Classification.inProgress := by
  have hleg : ∀ (l : List (ℕ × JsObj)) (st : MergeState),
      (∀ p ∈ st.map, p.2.categoryBreakdown = none ∧ p.2.rawTimeSpent = none ∧
        p.2.classification ≠ Classification.inProgress) →
      ∀ p ∈ (l.foldl legacyStep st).map,
        p.2.categoryBreakdown = none ∧ p.2.rawTimeSpent = none ∧
          p.2.classification ≠ Classification.inProgress := by
    intro l
    induction l with
    | nil => exact fun st h => h
    | cons a t ih =>
      intro st hst
      obtain ⟨i, rec⟩ := a
      refine ih _ (fun p hp => ?_)
      have hp' : p ∈ alSet st.map
          (createCourseKey (jsGet rec "courseName") (recordYearOf rec .legacy 2024))
          (legacyUnifiedOf rec) := hp
      rcases mem_alSet _ _ _ _ hp' with h1 | h1
      · exact hst p h1
      · subst h1
        exact ⟨rfl, rfl, by simp [legacyUnifiedOf]⟩
  have hmod : ∀ (l : List (ℕ × JsObj)) (st : MergeState),
      (∀ p ∈ st.map, p.2.categoryBreakdown = none ∧ p.2.rawTimeSpent = none ∧
        p.2.classification ≠ Classification.inProgress) →
      ∀ p ∈ (l.foldl modernStep st).map,
        p.2.categoryBreakdown = none ∧ p.2.rawTimeSpent = none ∧
          p.2.classification ≠ Classification.inProgress := by
    intro l
    induction l with
    | nil => exact fun st h => h
    | cons a t ih =>
      intro st hst
      obtain ⟨i, rec⟩ := a
      refine ih _ (fun p hp => ?_)
      rw [modernStep_map] at hp
      by_cases hdup : alHas st.map
          (createCourseKey (jsGet rec "courseName") (recordYearOf rec .modern 2026)) = true
      · rw [if_pos hdup] at hp
        exact hst p hp
      · rw [if_neg hdup] at hp
        rcases mem_alSet _ _ _ _ hp with h1 | h1
        · exact hst p h1
        · subst h1
          exact ⟨rfl, rfl, by simp [modernUnifiedOf]⟩
  exact hmod _ _ (hleg _ ⟨[], []⟩ (by simp))

/-- Provenance of a category breakdown relative to the original groups. -/
def breakdownFrom (g0 : TsGroups) (u : UnifiedCourseData) : Prop :=
  u.categoryBreakdown = none ∨
    ∃ es, alGet g0 u.normalizedCourseName = some es ∧
      u.categoryBreakdown = some (buildCategoryMap es) ∧ u.rawTimeSpent = some es

theorem attachPass_breakdown_inv (cm : List (String × UnifiedCourseData))
    (g g0 : TsGroups) (hnd : (alKeys g).Nodup)
    (hsub : ∀ nm, alGet g nm = none ∨ alGet g nm = alGet g0 nm)
    (hcm : ∀ p ∈ cm, p.2.categoryBreakdown = none) :
    ∀ p ∈ (attachPass cm g).1, breakdownFrom g0 p.2 := by
  induction cm generalizing g with
  | nil => simp [attachPass]
  | cons q rest ih =>
    rw [attachPass]
    cases hg : alGet g q.2.normalizedCourseName with
    | some es =>
      simp only [hg]
      intro p hp
      rcases List.mem_cons.mp hp with h1 | h1
      · subst h1
        right
        refine ⟨es, ?_, rfl, rfl⟩
        rcases hsub q.2.normalizedCourseName with h2 | h2
        · rw [hg] at h2; cases h2
        · rw [← h2]; exact hg
      · have hnd' := alKeys_alErase_nodup g q.2.normalizedCourseName hnd
        have hsub' : ∀ nm, alGet (alErase g q.2.normalizedCourseName) nm = none ∨
            alGet (alErase g q.2.normalizedCourseName) nm = alGet g0 nm := by
          intro nm
          by_cases hnm : q.2.normalizedCourseName = nm
          · subst hnm
            exact Or.inl (alGet_alErase_self_of_nodup g _ hnd)
          · rw [alGet_alErase_ne g _ _ hnm]
            exact hsub nm
        exact ih _ hnd' hsub' (fun p hp => hcm p (List.mem_cons_of_mem q hp)) p h1
    | none =>
      simp only [hg]
      intro p hp
      rcases List.mem_cons.mp hp with h1 | h1
      · subst h1
        exact Or.inl (hcm q (List.mem_cons_self q rest))
      · exact ih g hnd hsub (fun p hp => hcm p (List.mem_cons_of_mem q hp)) p h1

theorem synthFold_breakdown_inv (gs : TsGroups) (cm : List (String × UnifiedCourseData))
    (cy : ℤ) (g0 : TsGroups)
    (hgs : ∀ p ∈ gs, alGet g0 p.1 = some p.2)
    (hcm : ∀ p ∈ cm, breakdownFrom g0 p.2) :
    ∀ p ∈ gs.foldl (synthStep cy) cm, breakdownFrom g0 p.2 := by
  induction gs generalizing cm with
  | nil => exact hcm
  | cons q rest ih =>
    rw [List.foldl_cons]
    refine ih _ (fun p hp => hgs p (List.mem_cons_of_mem q hp)) (fun p hp => ?_)
    rcases mem_alSet _ _ _ _ hp with h1 | h1
    · exact hcm p h1
    · subst h1
      right
      exact ⟨q.2, hgs q (List.mem_cons_self q rest), rfl, rfl⟩

/-- Every unified instance's breakdown, when present, is built from its
normalized name's full group of time entries. -/
theorem merge_breakdown_from_groups (ld md ts : List JsObj) (cy : ℤ) :
    ∀ u ∈ (mergeAndClassifyData ld md ts cy).unified,
      breakdownFrom (buildTsGroups ts) u := by
  intro u hu
  have hnd0 := buildTsGroups_nodup ts
  obtain ⟨p, hp, hpu⟩ := List.mem_map.mp hu
  have hcm : ∀ p ∈ (mergeAttached ld md ts).1, breakdownFrom (buildTsGroups ts) p.2 := by
    unfold mergeAttached
    exact attachPass_breakdown_inv _ _ _ hnd0 (fun nm => Or.inr rfl)
      (fun p hp => (mergeBaseState_inv ld md p hp).1)
  have hgs : ∀ p ∈ (mergeAttached ld md ts).2, alGet (buildTsGroups ts) p.1 = some p.2 := by
    intro p hp
    have hmem : p ∈ buildTsGroups ts := by
      unfold mergeAttached at hp
      exact attachPass_leftover_mem _ _ p hp
    exact alGet_of_mem_of_nodup _ _ _ hnd0 hmem
  have hfinal := synthFold_breakdown_inv (mergeAttached ld md ts).2
    (mergeAttached ld md ts).1 cy (buildTsGroups ts) hgs hcm p
  rw [← hpu]
  apply hfinal
  have : (mergeAndClassifyData ld md ts cy).unified =
      ((mergeAttached ld md ts).2.foldl (synthStep cy) (mergeAttached ld md ts).1).map
        (·.2) := rfl
  rw [this] at hu
  exact hp

theorem jsOr_undef_left (v : JsValue) : jsOr .undefined v = v := by
  unfold jsOr
  simp [truthy]

theorem jsOr_num_num (x y : ℚ) : ∃ q, jsOr (.num x) (.num y) = .num q := by
  unfold jsOr
  by_cases h : truthy (JsValue.num x) = true
  · exact ⟨x, by rw [if_pos h]⟩
  · exact ⟨y, by rw [if_neg h]⟩

theorem entryHours_num (e : JsObj)
    (h : isNumOrUndef (jsGet e "time") = true ∧ isNumOrUndef (jsGet e "hours") = true) :
    ∃ q, entryHours e = .num q := by
  unfold entryHours
  cases ht : jsGet e "time" with
  | num qt =>
    cases hh : jsGet e "hours" with
    | num qh =>
      obtain ⟨qi, hqi⟩ := jsOr_num_num qh 0
      rw [hqi]
      exact jsOr_num_num qt qi
    | undefined =>
      rw [jsOr_undef_left]
      exact jsOr_num_num qt 0
    | str s => rw [ht, hh] at h; simp [isNumOrUndef] at h
    | boolean b => rw [ht, hh] at h; simp [isNumOrUndef] at h
    | null => rw [ht, hh] at h; simp [isNumOrUndef] at h
  | undefined =>
    rw [jsOr_undef_left]
    cases hh : jsGet e "hours" with
    | num qh => exact jsOr_num_num qh 0
    | undefined => exact ⟨0, by rw [jsOr_undef_left]⟩
    | str s => rw [ht, hh] at h; simp [isNumOrUndef] at h
    | boolean b => rw [ht, hh] at h; simp [isNumOrUndef] at h
    | null => rw [ht, hh] at h; simp [isNumOrUndef] at h
  | str s => rw [ht] at h; simp [isNumOrUndef] at h
  | boolean b => rw [ht] at h; simp [isNumOrUndef] at h
  | null => rw [ht] at h; simp [isNumOrUndef] at h

theorem sumVals_alSet (m : List (JsValue × JsValue)) (k v : JsValue) :
    sumVals (alSet m k v) =
      sumVals m - jsNumVal ((alGet m k).getD (.num 0)) + jsNumVal v := by
  induction m with
  | nil => simp [alSet, alGet, sumVals, jsNumVal]
  | cons p t ih =>
    by_cases hp : p.1 = k
    · rw [alSet, if_pos hp, alGet, if_pos hp]
      simp [sumVals]
      ring
    · rw [alSet, if_neg hp, alGet, if_neg hp]
      simp only [sumVals, List.map_cons, List.sum_cons] at ih ⊢
      rw [ih]
      ring

theorem jsAdd_num_num (a b : ℚ) : jsAdd (.num a) (.num b) = .num (a + b) := rfl

theorem catAccum_spec (m : List (JsValue × JsValue)) (e : JsObj)
    (hm : ∀ p ∈ m, ∃ q, p.2 = JsValue.num q)
    (he : ∃ qe, entryHours e = .num qe) :
    sumVals (catAccum m e) = sumVals m + jsNumVal (entryHours e) ∧
      ∀ p ∈ catAccum m e, ∃ q, p.2 = JsValue.num q := by
  obtain ⟨qe, hqe⟩ := he
  have hprev : ∃ qv, jsOr ((alGet m (entryCategory e)).getD .undefined) (.num 0) = .num qv ∧
      jsNumVal ((alGet m (entryCategory e)).getD (.num 0)) = qv := by
    cases hg : alGet m (entryCategory e) with
    | none => exact ⟨0, by simp [jsOr, truthy], by simp [jsNumVal]⟩
    | some v =>
      obtain ⟨qv, hqv⟩ :=
        hm (entryCategory e, v) (mem_of_alGet_eq_some m (entryCategory e) v hg)
      simp only at hqv
      subst hqv
      refine ⟨qv, ?_, by simp [jsNumVal]⟩
      by_cases h0 : qv = 0
      · subst h0; simp [jsOr, truthy]
      · simp [jsOr, truthy, h0]
  obtain ⟨qv, hqv1, hqv2⟩ := hprev
  have hnew : jsAdd (jsOr ((alGet m (entryCategory e)).getD .undefined) (.num 0)) (entryHours e)
      = .num (qv + qe) := by
    rw [hqv1, hqe, jsAdd_num_num]
  constructor
  · simp only [catAccum]
    rw [hnew, sumVals_alSet, hqv2, hqe]
    simp [jsNumVal]
    ring
  · intro p hp
    simp only [catAccum] at hp
    rw [hnew] at hp
    rcases mem_alSet _ _ _ _ hp with h1 | h1
    · exact hm p h1
    · subst h1
      exact ⟨qv + qe, rfl⟩

theorem buildCategoryMap_sum (es : List JsObj)
    (hes : ∀ e ∈ es, isNumOrUndef (jsGet e "time") = true ∧
      isNumOrUndef (jsGet e "hours") = true) :
    sumVals (buildCategoryMap es) = (es.map fun e => jsNumVal (entryHours e)).sum := by
  suffices h : ∀ (l : List JsObj) (m : List (JsValue × JsValue)),
      (∀ p ∈ m, ∃ q, p.2 = JsValue.num q) →
      (∀ e ∈ l, isNumOrUndef (jsGet e "time") = true ∧
        isNumOrUndef (jsGet e "hours") = true) →
      sumVals (l.foldl catAccum m) = sumVals m +
        (l.map fun e => jsNumVal (entryHours e)).sum by
    simpa [buildCategoryMap, sumVals] using h es [] (by simp) hes
  intro l
  induction l with
  | nil => intro m _ _; simp
  | cons e t ih =>
    intro m hm hl
    rw [List.foldl_cons]
    have he := entryHours_num e (hl e (List.mem_cons_self e t))
    obtain ⟨hsum, hvals⟩ := catAccum_spec m e hm he
    rw [ih _ hvals (fun x hx => hl x (List.mem_cons_of_mem e hx)), hsum]
    simp
    ring

/-- C4: for every unified instance carrying a category breakdown, the sum of
the breakdown's values equals the sum of the `time`/`hours` contributions of
exactly the time-entry records whose normalized course name equals the
instance's — nothing dropped, nothing double-counted.  (The `time`/`hours`
fields are required to be numbers or absent, their declared type.) -/
theorem c4_category_conservation (ld md ts : List JsObj) (cy : ℤ)
    (hnum : ∀ e ∈ ts, isNumOrUndef (jsGet e "time") = true ∧
      isNumOrUndef (jsGet e "hours") = true) :
    ∀ u ∈ (mergeAndClassifyData ld md ts cy).unified, ∀ cb,
      u.categoryBreakdown = some cb →
      sumVals cb = ((tsEntriesFor ts u.normalizedCourseName).map
        fun e => jsNumVal (entryHours e)).sum := by
  intro u hu cb hcb
  rcases merge_breakdown_from_groups ld md ts cy u hu with h | ⟨es, hes1, hes2, _⟩
  · rw [h] at hcb; cases hcb
  · rw [hes2] at hcb
    injection hcb with hcb
    subst hcb
    have hesf := buildTsGroups_get_eq ts u.normalizedCourseName es hes1
    rw [hesf]
    refine buildCategoryMap_sum _ (fun e heq => ?_)
    exact hnum e (List.mem_filter.mp heq).1

set_option maxRecDepth 1000000 in
/-- C4 witness: the attached "Fire" instance of the two-row example satisfies
the conservation equation. -/
theorem c4_category_conservation_witness :
    sumVals (((mergeAndClassifyData (normalizeLegacyData [exLegacyFire2023]).data []
        (normalizeTimeSpentData [exTsFireRow]).data 2025).unified.getD 0
          dfltUnified).categoryBreakdown.getD []) =
      ((tsEntriesFor (normalizeTimeSpentData [exTsFireRow]).data
          ((mergeAndClassifyData (normalizeLegacyData [exLegacyFire2023]).data []
            (normalizeTimeSpentData [exTsFireRow]).data 2025).unified.getD 0
              dfltUnified).normalizedCourseName).map
        fun e => jsNumVal (entryHours e)).sum :=
  c4_category_conservation (normalizeLegacyData [exLegacyFire2023]).data []
    (normalizeTimeSpentData [exTsFireRow]).data 2025
    (by with_unfolding_all decide)
    ((mergeAndClassifyData (normalizeLegacyData [exLegacyFire2023]).data []
      (normalizeTimeSpentData [exTsFireRow]).data 2025).unified.getD 0 dfltUnified)
    (by with_unfolding_all decide)
    (((mergeAndClassifyData (normalizeLegacyData [exLegacyFire2023]).data []
      (normalizeTimeSpentData [exTsFireRow]).data 2025).unified.getD 0
        dfltUnified).categoryBreakdown.getD [])
    (by with_unfolding_all decide)

/-! ## C2 — synthesized In Progress instances -/

/-- The normalized names of the In Progress instances of a unified list. -/
def ipNamesOf (us : List UnifiedCourseData) : List String :=
  (us.filter fun u => decide (u.classification = Classification.inProgress)).map
    (·.normalizedCourseName)

theorem string_append_cancel_right (a b s : String) (h : a ++ s = b ++ s) : a = b := by
  have hd : a.data ++ s.data = b.data ++ s.data := congrArg String.data h
  have : a.data = b.data := by
    have hlen : a.data.length = b.data.length := by
      have := congrArg List.length hd
      simpa using this
    exact List.append_inj_left hd hlen
  obtain ⟨da⟩ := a
  obtain ⟨db⟩ := b
  have hdd : da = db := this
  rw [hdd]

theorem mem_headD (es : List JsObj) (h : es ≠ []) : es.headD [] ∈ es := by
  cases es with
  | nil => exact absurd rfl h
  | cons e t => exact List.mem_cons_self e t

theorem normalizeCourseName_jsOr_emptyStr (v : JsValue) :
    normalizeCourseName (jsOr v (.str "")) = normalizeCourseName v := by
  by_cases h : truthy v = true
  · rw [jsOr, if_pos h]
  · rw [jsOr, if_neg h]
    rw [normalizeCourseName, normalizeCourseName]
    simp only [Bool.not_eq_true] at h
    rw [h]
    rfl

/-- Every entry of a time-spent group normalizes to the group's key. -/
theorem buildTsGroups_entry_names (ts : List JsObj) :
    ∀ p ∈ buildTsGroups ts, ∀ e ∈ p.2,
      normalizeCourseName (jsGet e "courseName") = p.1 := by
  suffices h : ∀ (l : List JsObj) (g : TsGroups),
      (∀ p ∈ g, ∀ e ∈ p.2, normalizeCourseName (jsGet e "courseName") = p.1) →
      ∀ p ∈ l.foldl addTsEntry g, ∀ e ∈ p.2,
        normalizeCourseName (jsGet e "courseName") = p.1 by
    exact h ts [] (by simp)
  intro l
  induction l with
  | nil => exact fun g hg => hg
  | cons a t ih =>
    intro g hg
    refine ih _ (fun p hp e he => ?_)
    unfold addTsEntry at hp
    rcases mem_alSet _ _ _ _ hp with h1 | h1
    · exact hg p h1 e he
    · subst h1
      simp only at he ⊢
      rcases List.mem_append.mp he with h2 | h2
      · cases hget : alGet g (normalizeCourseName (jsGet a "courseName")) with
        | none => rw [hget] at h2; simp at h2
        | some es0 =>
          rw [hget] at h2
          exact hg _ (mem_of_alGet_eq_some _ _ _ hget) e (by simpa using h2)
      · simp at h2
        subst h2
        rfl

/-- Time-spent groups are never empty. -/
theorem buildTsGroups_values_nonempty (ts : List JsObj) :
    ∀ p ∈ buildTsGroups ts, p.2 ≠ [] := by
  suffices h : ∀ (l : List JsObj) (g : TsGroups),
      (∀ p ∈ g, p.2 ≠ []) → ∀ p ∈ l.foldl addTsEntry g, p.2 ≠ [] by
    exact h ts [] (by simp)
  intro l
  induction l with
  | nil => exact fun g hg => hg
  | cons a t ih =>
    intro g hg
    refine ih _ (fun p hp => ?_)
    unfold addTsEntry at hp
    rcases mem_alSet _ _ _ _ hp with h1 | h1
    · exact hg p h1
    · subst h1
      simp

/-- The attach pass changes no classification. -/
theorem attachPass_no_ip (cm : List (String × UnifiedCourseData)) (g : TsGroups)
    (hcm : ∀ p ∈ cm, p.2.classification ≠ Classification.inProgress) :
    ∀ p ∈ (attachPass cm g).1, p.2.classification ≠ Classification.inProgress := by
  induction cm generalizing g with
  | nil => simp [attachPass]
  | cons q rest ih =>
    rw [attachPass]
    cases hg : alGet g q.2.normalizedCourseName with
    | some es =>
      simp only [hg]
      intro p hp
      rcases List.mem_cons.mp hp with h1 | h1
      · subst h1
        exact hcm q (List.mem_cons_self q rest)
      · exact ih _ (fun p hp => hcm p (List.mem_cons_of_mem q hp)) p h1
    | none =>
      simp only [hg]
      intro p hp
      rcases List.mem_cons.mp hp with h1 | h1
      · subst h1
        exact hcm q (List.mem_cons_self q rest)
      · exact ih g (fun p hp => hcm p (List.mem_cons_of_mem q hp)) p h1

/-- The field invariant of a synthesized In Progress record. -/
def ipShape (cy : ℤ) (u : UnifiedCourseData) : Prop :=
  u.status = .str "In Progress" ∧ u.reportingYear = .num cy ∧ u.year = .num cy ∧
    u.metadata = [] ∧ u.rawLegacy = none ∧ u.rawModern = none ∧
    ∃ es, es ≠ [] ∧ u.rawTimeSpent = some es ∧
      u.totalTime = es.foldl (fun sum e => jsAdd sum (entryHours e)) (JsValue.num 0)

theorem synthFold_ip_shape (gs : TsGroups) (cm : List (String × UnifiedCourseData))
    (cy : ℤ) (hgs : ∀ p ∈ gs, p.2 ≠ [])
    (hcm : ∀ p ∈ cm, p.2.classification = Classification.inProgress → ipShape cy p.2) :
    ∀ p ∈ gs.foldl (synthStep cy) cm,
      p.2.classification = Classification.inProgress → ipShape cy p.2 := by
  induction gs generalizing cm with
  | nil => exact hcm
  | cons q rest ih =>
    rw [List.foldl_cons]
    refine ih _ (fun p hp => hgs p (List.mem_cons_of_mem q hp)) (fun p hp hip => ?_)
    rcases mem_alSet _ _ _ _ hp with h1 | h1
    · exact hcm p h1 hip
    · subst h1
      exact ⟨rfl, rfl, rfl, rfl, rfl, rfl,
        q.2, hgs q (List.mem_cons_self q rest), rfl, rfl⟩

theorem ipNamesOf_append (us vs : List UnifiedCourseData) :
    ipNamesOf (us ++ vs) = ipNamesOf us ++ ipNamesOf vs := by
  simp [ipNamesOf]

theorem ipNamesOf_cons (u : UnifiedCourseData) (us : List UnifiedCourseData) :
    ipNamesOf (u :: us) =
      if u.classification = Classification.inProgress
      then u.normalizedCourseName :: ipNamesOf us
      else ipNamesOf us := by
  by_cases h : u.classification = Classification.inProgress <;> simp [ipNamesOf, h]

/-- Replacing a non-In-Progress value with an In Progress one adds exactly
that name to the In Progress names, up to permutation. -/
theorem ipNamesOf_alSet_replace (cm : List (String × UnifiedCourseData))
    (key : String) (v u : UnifiedCourseData)
    (hget : alGet cm key = some v)
    (hv : v.classification ≠ Classification.inProgress)
    (hu : u.classification = Classification.inProgress) :
    List.Perm (ipNamesOf ((alSet cm key u).map (·.2)))
      (ipNamesOf (cm.map (·.2)) ++ [u.normalizedCourseName]) := by
  induction cm with
  | nil => simp [alGet] at hget
  | cons p t ih =>
    by_cases hp : p.1 = key
    · rw [alGet, if_pos hp] at hget
      injection hget with hget
      rw [alSet, if_pos hp]
      rw [List.map_cons, List.map_cons, ipNamesOf_cons, ipNamesOf_cons, hget]
      rw [if_pos hu, if_neg hv]
      exact (List.perm_append_singleton u.normalizedCourseName _).symm
    · rw [alGet, if_neg hp] at hget
      rw [alSet, if_neg hp]
      have hperm := ih hget
      rw [List.map_cons, List.map_cons, ipNamesOf_cons, ipNamesOf_cons]
      by_cases hip : p.2.classification = Classification.inProgress
      · rw [if_pos hip, if_pos hip]
        exact (hperm.cons p.2.normalizedCourseName).trans (by simp)
      · rw [if_neg hip, if_neg hip]
        exact hperm

theorem ipNamesOf_alSet_fresh (cm : List (String × UnifiedCourseData))
    (key : String) (u : UnifiedCourseData)
    (hget : alGet cm key = none)
    (hu : u.classification = Classification.inProgress) :
    ipNamesOf ((alSet cm key u).map (·.2)) =
      ipNamesOf (cm.map (·.2)) ++ [u.normalizedCourseName] := by
  rw [alSet_of_not_has cm key u hget]
  rw [List.map_append, ipNamesOf_append]
  simp [ipNamesOf, hu]

/-- The synthesis pass appends exactly one In Progress name per leftover
group; keys of synthesized records never collide with each other and only
overwrite non-In-Progress instances. -/
theorem synthFold_perm (gs : TsGroups) (cm : List (String × UnifiedCourseData)) (cy : ℤ)
    (hnd : (gs.map Prod.fst).Nodup)
    (hkey : ∀ p ∈ gs,
      createCourseKey (jsOr (jsGet (p.2.headD []) "courseName") (.str "")) (.num cy) =
        p.1 ++ "__" ++ jsToString (JsValue.num cy))
    (hip : ∀ p ∈ cm, p.2.classification = Classification.inProgress →
      p.1 ∉ gs.map fun q => q.1 ++ "__" ++ jsToString (JsValue.num cy)) :
    List.Perm (ipNamesOf ((gs.foldl (synthStep cy) cm).map (·.2)))
      (ipNamesOf (cm.map (·.2)) ++ gs.map Prod.fst) := by
  induction gs generalizing cm with
  | nil => simp
  | cons q rest ih =>
    rw [List.foldl_cons]
    have hkeyq := hkey q (List.mem_cons_self q rest)
    have hstep : synthStep cy cm q =
        alSet cm (q.1 ++ "__" ++ jsToString (JsValue.num cy)) (synthRecordOf cy q) := by
      unfold synthStep synthRecordOf
      rw [hkeyq]
    have hnew_ip : (synthRecordOf cy q).classification = Classification.inProgress := rfl
    have hnamestep : List.Perm (ipNamesOf ((synthStep cy cm q).map (·.2)))
        (ipNamesOf (cm.map (·.2)) ++ [q.1]) := by
      rw [hstep]
      cases hget : alGet cm (q.1 ++ "__" ++ jsToString (JsValue.num cy)) with
      | none =>
        rw [ipNamesOf_alSet_fresh cm _ _ hget hnew_ip]
        simp [synthRecordOf]
      | some v =>
        have hvnotip : v.classification ≠ Classification.inProgress := by
          intro hvip
          have hmem := mem_of_alGet_eq_some cm _ v hget
          exact hip _ hmem hvip (by simp)
        exact ipNamesOf_alSet_replace cm _ v _ hget hvnotip hnew_ip
    have hnd' : (rest.map Prod.fst).Nodup := (List.nodup_cons.mp (by simpa using hnd)).2
    have hkey' : ∀ p ∈ rest,
        createCourseKey (jsOr (jsGet (p.2.headD []) "courseName") (.str "")) (.num cy) =
          p.1 ++ "__" ++ jsToString (JsValue.num cy) :=
      fun p hp => hkey p (List.mem_cons_of_mem q hp)
    have hip' : ∀ p ∈ synthStep cy cm q,
        p.2.classification = Classification.inProgress →
        p.1 ∉ rest.map fun r => r.1 ++ "__" ++ jsToString (JsValue.num cy) := by
      intro p hp hpip hmem
      rw [hstep] at hp
      rcases mem_alSet _ _ _ _ hp with h1 | h1
      · exact hip p h1 hpip (List.mem_cons_of_mem _ hmem)
      · rcases List.mem_map.mp hmem with ⟨r, hr, hr1⟩
        have hq1 : p.1 = q.1 ++ "__" ++ jsToString (JsValue.num cy) := by rw [h1]
        have h2 : r.1 ++ "__" ++ jsToString (JsValue.num cy) =
            q.1 ++ "__" ++ jsToString (JsValue.num cy) := by
          rw [hq1] at hr1
          exact hr1
        have h3 := string_append_cancel_right (r.1 ++ "__") (q.1 ++ "__") _ h2
        have h4 := string_append_cancel_right r.1 q.1 "__" h3
        have hqmem : q.1 ∈ rest.map Prod.fst := h4 ▸ List.mem_map.mpr ⟨r, hr, rfl⟩
        exact (List.nodup_cons.mp (by simpa using hnd)).1 hqmem
    refine (ih (synthStep cy cm q) hnd' hkey' hip').trans ?_
    refine (hnamestep.append_right (rest.map Prod.fst)).trans ?_
    rw [List.append_assoc]
    have hconv : [q.1] ++ rest.map Prod.fst = (q :: rest).map Prod.fst := by simp
    rw [hconv]

/-- C2: every In Progress record in the output is a pure synthesis from an
unmatched time-entry group — status "In Progress", both year fields set to the
current calendar year, empty metadata, no Legacy/Modern raw record, raw
entries attached and `totalTime` the fold of their hours — and the In
Progress records correspond exactly (one each) to the leftover groups, whose
keys are distinct normalized names. -/
theorem c2_in_progress_synthesis (ld md ts : List JsObj) (cy : ℤ) :
    (∀ u ∈ (mergeAndClassifyData ld md ts cy).unified,
        u.classification = Classification.inProgress → ipShape cy u) ∧
    List.Perm (ipNamesOf (mergeAndClassifyData ld md ts cy).unified)
      (alKeys (mergeAttached ld md ts).2) ∧
    (alKeys (mergeAttached ld md ts).2).Nodup := by
  have hnd0 := buildTsGroups_nodup ts
  have hleft_nodup : (alKeys (mergeAttached ld md ts).2).Nodup := by
    unfold mergeAttached
    exact attachPass_leftover_nodup _ _ hnd0
  have hleft_mem : ∀ p ∈ (mergeAttached ld md ts).2, p ∈ buildTsGroups ts := by
    intro p hp
    unfold mergeAttached at hp
    exact attachPass_leftover_mem _ _ p hp
  have hbase := mergeBaseState_inv ld md
  have hatt_no_ip : ∀ p ∈ (mergeAttached ld md ts).1,
      p.2.classification ≠ Classification.inProgress := by
    unfold mergeAttached
    exact attachPass_no_ip _ _ (fun p hp => (hbase p hp).2.2)
  have hunified : (mergeAndClassifyData ld md ts cy).unified =
      ((mergeAttached ld md ts).2.foldl (synthStep cy) (mergeAttached ld md ts).1).map
        (·.2) := rfl
  constructor
  · intro u hu hip
    rw [hunified] at hu
    obtain ⟨p, hp, hpu⟩ := List.mem_map.mp hu
    rw [← hpu]
    refine synthFold_ip_shape _ _ cy
      (fun p hp => buildTsGroups_values_nonempty ts p (hleft_mem p hp))
      (fun p hp hipp => absurd hipp (hatt_no_ip p hp)) p hp ?_
    rw [hpu]
    exact hip
  constructor
  · rw [hunified]
    have hkey : ∀ p ∈ (mergeAttached ld md ts).2,
        createCourseKey (jsOr (jsGet (p.2.headD []) "courseName") (.str "")) (.num cy) =
          p.1 ++ "__" ++ jsToString (JsValue.num cy) := by
      intro p hp
      have hne := buildTsGroups_values_nonempty ts p (hleft_mem p hp)
      have hhead := buildTsGroups_entry_names ts p (hleft_mem p hp)
        (p.2.headD []) (mem_headD p.2 hne)
      unfold createCourseKey
      rw [normalizeCourseName_jsOr_emptyStr, hhead]
    have hip0 : ∀ p ∈ (mergeAttached ld md ts).1,
        p.2.classification = Classification.inProgress →
        p.1 ∉ (mergeAttached ld md ts).2.map
          fun q => q.1 ++ "__" ++ jsToString (JsValue.num cy) :=
      fun p hp hipp => absurd hipp (hatt_no_ip p hp)
    have hperm := synthFold_perm (mergeAttached ld md ts).2 (mergeAttached ld md ts).1 cy
      hleft_nodup hkey hip0
    have hempty : ipNamesOf ((mergeAttached ld md ts).1.map (·.2)) = [] := by
      unfold ipNamesOf
      rw [List.filter_eq_nil_iff.mpr, List.map_nil]
      intro u hu
      obtain ⟨p, hp, hpu⟩ := List.mem_map.mp hu
      simpa [hpu] using hatt_no_ip p hp
    rw [hempty] at hperm
    simpa [alKeys] using hperm
  · exact hleft_nodup

set_option maxRecDepth 1000000 in
/-- C2 witness: a time entry with no Legacy/Modern counterpart becomes an
In Progress record with the synthesized shape. -/
theorem c2_in_progress_synthesis_witness :
    ipShape 2025 ((mergeAndClassifyData (normalizeLegacyData [exLegacyRow]).data []
      (normalizeTimeSpentData [exTsNewRow]).data 2025).unified.getD 1 dfltUnified) :=
  (c2_in_progress_synthesis (normalizeLegacyData [exLegacyRow]).data []
      (normalizeTimeSpentData [exTsNewRow]).data 2025).1
    ((mergeAndClassifyData (normalizeLegacyData [exLegacyRow]).data []
      (normalizeTimeSpentData [exTsNewRow]).data 2025).unified.getD 1 dfltUnified)
    (by with_unfolding_all decide)
    (by with_unfolding_all decide)

/-! ## C1 — duplicate Modern instances are discarded -/

/-- C1: when a Modern record's course key is already present in the course
map, the Modern pass leaves the map — and so the surviving instance with all
its fields — completely unchanged, and appends exactly one warning-severity
duplicate-course diagnostic (after the independent missing-Reporting warning,
when that one fires too). -/
theorem c1_duplicate_modern_discarded (st : MergeState) (i : ℕ) (modern : JsObj)
    (h : alHas st.map
      (createCourseKey (jsGet modern "courseName") (recordYearOf modern .modern 2026)) = true) :
    (modernStep st (i, modern)).map = st.map ∧
    (modernStep st (i, modern)).errors =
      st.errors ++
        (if optYearTruthy (extractReportingYear modern .modern) then []
         else [missingReportingWarning "Modern Course Data" i (jsGet modern "courseName")]) ++
        [duplicateCourseWarning (jsGet modern "courseName")
          (recordYearOf modern .modern 2026)] := by
  unfold modernStep
  simp only [h, if_true]
  exact ⟨trivial, trivial⟩

/-- C1 witness: the spec's duplicate scenario — a Modern row with the same
normalized name and year 2023 as the existing Legacy instance. -/
theorem c1_duplicate_modern_discarded_witness :
    (modernStep (mergeBaseState (normalizeLegacyData [exLegacyRow]).data [])
        (0, (normalizeModernData [exModernRow]).data.headD [])).map =
      (mergeBaseState (normalizeLegacyData [exLegacyRow]).data []).map :=
  (c1_duplicate_modern_discarded
      (mergeBaseState (normalizeLegacyData [exLegacyRow]).data []) 0
      ((normalizeModernData [exModernRow]).data.headD [])
      (by with_unfolding_all decide)).1

end Lct
